import Mathlib

/-!
# snark-cpp: big integers, finite-field polynomials and Lagrange interpolation

A shallow embedding of `src/src/bigint.cpp`, `src/src/polynomial.cpp`,
`src/src/interpolation.cpp` and `src/src/test.cpp`.

* `mpz_t` values are mathematical integers (`Int`); the GMP entry points the
  sources call (`mpz_add`, `mpz_fdiv_q`, `mpz_mod`, `mpz_invert`, ...) are
  modelled after the GMP manual, because GMP itself is an external library.
* A call that can end without a value returns `Except Failure _`.
* The polynomial routines write into a caller-supplied `result`; here they take
  the prior state of `result` as an argument and return its final state.  On
  failure they return the failure together with the state `result` was left in.
* The `result` object is taken to be distinct from the operands (the operands
  are `const` references; no aliasing is modelled).
* Decimal strings handed to the constructors are represented by the integers
  they denote (string parsing is done by GMP and is not modelled).
* A loop whose trip count is not known beforehand (`E` of test.cpp) takes a
  fuel argument and returns `none` when the fuel runs out.
* A variable the source reads without having initialised it (the loop counter
  of `E`) is an argument of the embedding: the program does not determine it.
* A GMP fault that ends the process (division by zero, "overflow in mpz type")
  is a `Failure` that is not an exception (`Failure.isException`).
* GMP's primality test is exact up to 1000000; what its probabilistic stage
  answers beyond that is a parameter (`ProbabilisticStage`) of `isPrime` and
  `nextPrime`.
-/

namespace SnarkCpp

/-! ## Failures -/

/-- The ways a call of the library can end without producing a value. -/
inductive Failure where
  /-- Models `throw std::invalid_argument(what)`. -/
  | invalidArgument (what : String)
  /-- Models `throw std::runtime_error(what)`. -/
  | runtimeError (what : String)
  /-- Models `std::length_error`, thrown by `std::vector::resize` beyond `max_size()`. -/
  | lengthError
  /-- GMP was asked to divide by zero: it deliberately executes a hardware
  division by zero, which ends the process (no C++ exception is thrown). -/
  | divideByZero
  /-- GMP was asked for an integer of more limbs than an `mpz_t` can count: it
  prints "gmp: overflow in mpz type" and aborts the process (no C++ exception is
  thrown). -/
  | mpzOverflow
  deriving DecidableEq, Repr

/-- Whether a failure is a C++ exception: it unwinds to the caller, who can catch
it and go on.  The two GMP faults end the process instead; no caller gets to see
them. -/
def Failure.isException : Failure → Bool
  | .invalidArgument _ => true
  | .runtimeError _ => true
  | .lengthError => true
  | .divideByZero => false
  | .mpzOverflow => false

deriving instance DecidableEq for Except

/-! ## GMP primitives (modelled after the GMP manual) -/

/-- GMP `mpz_add(rop, op1, op2)`: sets `rop` to `op1 + op2`. -/
def mpz_add (op1 op2 : Int) : Int := op1 + op2

/-- GMP `mpz_sub(rop, op1, op2)`: sets `rop` to `op1 - op2`. -/
def mpz_sub (op1 op2 : Int) : Int := op1 - op2

/-- GMP `mpz_mul(rop, op1, op2)`: sets `rop` to `op1 * op2`. -/
def mpz_mul (op1 op2 : Int) : Int := op1 * op2

/-- GMP `mpz_fdiv_q(q, n, d)`: the quotient rounded towards minus infinity.
Division by zero is a fault. -/
def mpz_fdiv_q (n d : Int) : Except Failure Int :=
  if d = 0 then .error .divideByZero else .ok (Int.fdiv n d)

/-- GMP `mpz_mod(r, n, d)`: sets `r` to `n mod d`.  The GMP manual: "The sign of the
divisor is ignored; the result is always non-negative."  Division by zero is a
fault. -/
def mpz_mod (n d : Int) : Except Failure Int :=
  if d = 0 then .error .divideByZero else .ok (n % d)

/-- GMP `mpz_cmp(op1, op2)`: positive, zero or negative according to whether
`op1 > op2`, `op1 = op2` or `op1 < op2`. -/
def mpz_cmp (op1 op2 : Int) : Int := Int.sign (op1 - op2)

/-- GMP `mpz_cmp_ui(op1, op2)`: as `mpz_cmp`, the second operand an unsigned long. -/
def mpz_cmp_ui (op1 : Int) (op2 : Nat) : Int := Int.sign (op1 - (op2 : Int))

/-- GMP `mpz_invert(rop, op1, op2)`.  The GMP manual: "Compute the inverse of `op1`
modulo `op2` and put the result in `rop`.  If the inverse exists, the return
value is non-zero and `rop` will satisfy `0 <= rop < |op2|` (with `rop = 0`
possible only when `|op2| = 1`, i.e., in the somewhat degenerate zero ring).  If
an inverse doesn't exist the return value is zero and `rop` is undefined.  The
behaviour of this function is undefined when `op2` is zero."

The model searches `0, 1, ..., |op2| - 1` for the residue `r` with
`op1 * r ≡ 1 (mod op2)`; `none` stands for the return value zero.  For
`op2 = 0` (undefined in GMP) the search range is empty. -/
def mpz_invert (op1 op2 : Int) : Option Int :=
  ((List.range op2.natAbs).map Int.ofNat).find? (fun r => decide ((op1 * r - 1) % op2 = 0))

/-- Primality of a natural number by trial division. -/
def isPrimeNat (n : Nat) : Bool :=
  decide (2 ≤ n) && (List.range n).all (fun d => decide (d < 2) || decide (n % d ≠ 0))

/-- What GMP's probabilistic primality stage does is not fixed by the manual:
`passes n reps` tells whether the composite `n` survives `reps` rounds (a false
positive), `certain n` whether the prime `n` is reported as definitely prime. -/
structure ProbabilisticStage where
  passes : Nat → Int → Bool
  certain : Nat → Bool

/-- GMP `mpz_probab_prime_p(n, reps)`.  The GMP manual: "Return 2 if `n` is
definitely prime, return 1 if `n` is probably prime (without being certain), or
return 0 if `n` is definitely non-prime."  The sign of `n` is ignored, and up to
`1000000` GMP decides by trial division (mpz/pprime_p.c), answering 2 or 0;
beyond that the answer comes from the probabilistic stage `S`, which never
rejects a prime. -/
def mpz_probab_prime_p (S : ProbabilisticStage) (n : Int) (reps : Int) : Int :=
  if n.natAbs ≤ 1000000 then (if isPrimeNat n.natAbs then 2 else 0)
  else if isPrimeNat n.natAbs then (if S.certain n.natAbs then 2 else 1)
  else (if S.passes n.natAbs reps then 1 else 0)

/-- Search of `mpz_nextprime`: the first candidate from `c` on that the primality
test (25 rounds) does not reject; `fuel` bounds the number of candidates tried. -/
def mpz_nextprime.search (S : ProbabilisticStage) : Nat → Nat → Nat
  | 0, c => c
  | fuel + 1, c =>
    if mpz_probab_prime_p S (c : Int) 25 ≠ 0 then c else mpz_nextprime.search S fuel (c + 1)

/-- GMP `mpz_nextprime(rop, op)`.  The GMP manual: "Set `rop` to the next prime
greater than `op`.  This function uses a probabilistic algorithm to identify
primes."  For `op < 2` the result is 2.  The fuel `op + 2` reaches past `2 * op`,
below which a prime always lies. -/
def mpz_nextprime (S : ProbabilisticStage) (op : Int) : Int :=
  (mpz_nextprime.search S (op.toNat + 2) (op.toNat + 1) : Nat)

/-! ## BigInt (src/src/bigint.cpp) -/

/-- The class `BigInt`: a single private member `mpz_t value`. -/
structure BigInt where
  value : Int
  deriving DecidableEq, Repr

instance : Inhabited BigInt := ⟨⟨0⟩⟩

namespace BigInt

/-- Embeds `BigInt::BigInt()`: `mpz_init` sets the value to 0. -/
def new : BigInt := ⟨0⟩

/-- Embeds `BigInt::BigInt(unsigned long int val)`. -/
def ofNat (val : Nat) : BigInt := ⟨(val : Int)⟩

/-- Embeds `BigInt::operator+`. -/
def add (self other : BigInt) : BigInt := ⟨mpz_add self.value other.value⟩

/-- Embeds `BigInt::operator-`. -/
def sub (self other : BigInt) : BigInt := ⟨mpz_sub self.value other.value⟩

/-- Embeds `BigInt::operator*`. -/
def mul (self other : BigInt) : BigInt := ⟨mpz_mul self.value other.value⟩

/-- Embeds `BigInt::operator/`: `mpz_fdiv_q`. -/
def div (self other : BigInt) : Except Failure BigInt :=
  match mpz_fdiv_q self.value other.value with
  | .ok q => .ok ⟨q⟩
  | .error e => .error e

/-- Embeds `BigInt::operator%`: `mpz_mod`. -/
def mod (self other : BigInt) : Except Failure BigInt :=
  match mpz_mod self.value other.value with
  | .ok r => .ok ⟨r⟩
  | .error e => .error e

/-- Embeds `BigInt::operator+=`: the new value of the receiver. -/
def addAssign (self other : BigInt) : BigInt := ⟨mpz_add self.value other.value⟩

/-- Embeds `BigInt::operator*=`: the new value of the receiver. -/
def mulAssign (self other : BigInt) : BigInt := ⟨mpz_mul self.value other.value⟩

/-- Embeds `BigInt::operator%=`: the new value of the receiver. -/
def modAssign (self other : BigInt) : Except Failure BigInt :=
  match mpz_mod self.value other.value with
  | .ok r => .ok ⟨r⟩
  | .error e => .error e

/-- Embeds `BigInt::operator==`: `mpz_cmp(value, other.value) == 0`. -/
def eq (self other : BigInt) : Bool := decide (mpz_cmp self.value other.value = 0)

/-- Embeds `BigInt::operator!=`: `!(*this == other)`. -/
def ne (self other : BigInt) : Bool := !(self.eq other)

/-- Embeds `BigInt::isZero`: `mpz_cmp_ui(value, 0) == 0`. -/
def isZero (self : BigInt) : Bool := decide (mpz_cmp_ui self.value 0 = 0)

/-- Embeds `BigInt::modInverse`: returns the inverse when `mpz_invert` reports one and
throws `std::runtime_error("Modular inverse does not exist.")` otherwise.  The
receiver is `const` and is not modified. -/
def modInverse (self modulus : BigInt) : Except Failure BigInt :=
  match mpz_invert self.value modulus.value with
  | some inverse => .ok ⟨inverse⟩
  | none => .error (.runtimeError "Modular inverse does not exist.")

/-- Embeds `BigInt::operator/=`: the new value of the receiver. -/
def divAssign (self other : BigInt) : Except Failure BigInt :=
  match mpz_fdiv_q self.value other.value with
  | .ok q => .ok ⟨q⟩
  | .error e => .error e

/-- Embeds `BigInt::isPrime(provable)`: `mpz_probab_prime_p(value, provable)`. -/
def isPrime (S : ProbabilisticStage) (self : BigInt) (provable : Int) : Int :=
  mpz_probab_prime_p S self.value provable

/-- Embeds the static `BigInt::nextPrime(startAt, provable)`:
`mpz_nextprime(result.value, startAt.value)`; the argument `provable` is not used. -/
def nextPrime (S : ProbabilisticStage) (startAt : BigInt) (_provable : Int) : BigInt :=
  ⟨mpz_nextprime S startAt.value⟩

end BigInt

/-! ## Polynomial (src/src/polynomial.cpp) -/

/-- Models `std::vector<BigInt>::resize(n, val)`: keeps the first `n` elements and
appends copies of `val` until the size is `n`.  (`resize(n)` appends
default-constructed elements, i.e. `BigInt.new`.) -/
def vector_resize (v : List BigInt) (n : Nat) (val : BigInt) : List BigInt :=
  v.take n ++ List.replicate (n - v.length) val

/-- Models `std::vector<BigInt>::max_size()`: implementation-defined; the value for a
64-bit target with a 16-byte `mpz_t` (`PTRDIFF_MAX / sizeof(BigInt)`).  A
`resize` beyond it throws `std::length_error`. -/
def vector_max_size : Nat := (2 ^ 63 - 1) / 16

/-- The class `Polynomial`: `std::vector<BigInt> coefficients` (index 0 is the
constant term) and `BigInt mod`. -/
structure Polynomial where
  coefficients : List BigInt
  mod : BigInt
  deriving DecidableEq, Repr

/-- Embeds `Polynomial::Polynomial(coeff_array, modulusStr)`: every coefficient is
stored as parsed; nothing is reduced modulo `mod`. -/
def Polynomial.new (coeff_array : List Int) (modulus : Int) : Polynomial :=
  { coefficients := coeff_array.map BigInt.mk, mod := ⟨modulus⟩ }

/-- Conversion of a `size_t` value to `int` (32 bits, two's complement): the
value modulo `2^32`, read as a signed number. -/
def int_of_size_t (n : Nat) : Int :=
  if n % 2 ^ 32 < 2 ^ 31 then ((n % 2 ^ 32 : Nat) : Int) else ((n % 2 ^ 32 : Nat) : Int) - 2 ^ 32

/-- Embeds `Polynomial::deg()`: `return coefficients.size() - 1;`, the subtraction
in `size_t` (64 bits), the result converted to `int`. -/
def Polynomial.deg (self : Polynomial) : Int :=
  int_of_size_t ((self.coefficients.length + 2 ^ 64 - 1) % 2 ^ 64)

/-- Body of the loop of `addPolynomials` for index `i`. -/
def addPolynomials.body (a b : Polynomial) (result : Polynomial) (i : Nat) :
    Except (Failure × Polynomial) Polynomial :=
  let sum := BigInt.add
    (if i < a.coefficients.length then a.coefficients.getD i default else BigInt.ofNat 0)
    (if i < b.coefficients.length then b.coefficients.getD i default else BigInt.ofNat 0)
  match sum.modAssign a.mod with
  | .ok sum => .ok { result with coefficients := result.coefficients.set i sum }
  | .error e => .error (e, result)

/-- Embeds `addPolynomials(result, a, b)`. -/
def addPolynomials (result a b : Polynomial) : Except (Failure × Polynomial) Polynomial :=
  if a.mod.ne b.mod then
    .error (.invalidArgument "Moduli of the polynomials must be the same.", result)
  else
    let max_degree := max a.coefficients.length b.coefficients.length
    let result : Polynomial :=
      { coefficients := vector_resize result.coefficients max_degree BigInt.new, mod := a.mod }
    (List.range max_degree).foldlM (addPolynomials.body a b) result

/-- Body of the loop of `subtractPolynomials` for index `i`. -/
def subtractPolynomials.body (a b : Polynomial) (result : Polynomial) (i : Nat) :
    Except (Failure × Polynomial) Polynomial :=
  let diff := BigInt.sub
    (if i < a.coefficients.length then a.coefficients.getD i default else BigInt.ofNat 0)
    (if i < b.coefficients.length then b.coefficients.getD i default else BigInt.ofNat 0)
  match diff.modAssign a.mod with
  | .ok diff => .ok { result with coefficients := result.coefficients.set i diff }
  | .error e => .error (e, result)

/-- Embeds `subtractPolynomials(result, a, b)`. -/
def subtractPolynomials (result a b : Polynomial) : Except (Failure × Polynomial) Polynomial :=
  if a.mod.ne b.mod then
    .error (.invalidArgument "Moduli of the polynomials must be the same.", result)
  else
    let max_degree := max a.coefficients.length b.coefficients.length
    let result : Polynomial :=
      { coefficients := vector_resize result.coefficients max_degree BigInt.new, mod := a.mod }
    (List.range max_degree).foldlM (subtractPolynomials.body a b) result

/-- Body of the inner loop of `multiplyPolynomials` for indices `i`, `j`:
`result[i + j] += a[i] * b[j]; result[i + j] %= a.mod`. -/
def multiplyPolynomials.body (a b : Polynomial) (i : Nat) (result : Polynomial) (j : Nat) :
    Except (Failure × Polynomial) Polynomial :=
  let acc := BigInt.addAssign (result.coefficients.getD (i + j) default)
    (BigInt.mul (a.coefficients.getD i default) (b.coefficients.getD j default))
  match acc.modAssign a.mod with
  | .ok r => .ok { result with coefficients := result.coefficients.set (i + j) r }
  | .error e => .error (e, { result with coefficients := result.coefficients.set (i + j) acc })

/-- Body of the outer loop of `multiplyPolynomials` for index `i`. -/
def multiplyPolynomials.row (a b : Polynomial) (result : Polynomial) (i : Nat) :
    Except (Failure × Polynomial) Polynomial :=
  (List.range b.coefficients.length).foldlM (multiplyPolynomials.body a b i) result

/-- Embeds `multiplyPolynomials(result, a, b)`.  `result_degree` is computed in
`size_t` (64 bits), so it wraps to `2^64 - 1` when both operands are empty;
`resize` keeps whatever `result` already held in its first `result_degree`
places and only pads with zeros. -/
def multiplyPolynomials (result a b : Polynomial) : Except (Failure × Polynomial) Polynomial :=
  if a.mod.ne b.mod then
    .error (.invalidArgument "Moduli of the polynomials must be the same.", result)
  else
    let result_degree := (a.coefficients.length + b.coefficients.length + 2 ^ 64 - 1) % 2 ^ 64
    if vector_max_size < result_degree then .error (.lengthError, result)
    else
      let result : Polynomial :=
        { coefficients := vector_resize result.coefficients result_degree (BigInt.ofNat 0),
          mod := a.mod }
      (List.range a.coefficients.length).foldlM (multiplyPolynomials.row a b) result

/-- Body of the loop of `multiplyPolynomialByScalar` for index `i`. -/
def multiplyPolynomialByScalar.body (poly : Polynomial) (scalar : BigInt)
    (result : Polynomial) (i : Nat) : Except (Failure × Polynomial) Polynomial :=
  let prod := BigInt.mul (poly.coefficients.getD i default) scalar
  match prod.modAssign poly.mod with
  | .ok r => .ok { result with coefficients := result.coefficients.set i r }
  | .error e => .error (e, { result with coefficients := result.coefficients.set i prod })

/-- Embeds `multiplyPolynomialByScalar(result, poly, scalar)`. -/
def multiplyPolynomialByScalar (result poly : Polynomial) (scalar : BigInt) :
    Except (Failure × Polynomial) Polynomial :=
  let result : Polynomial :=
    { coefficients := vector_resize result.coefficients poly.coefficients.length BigInt.new,
      mod := poly.mod }
  (List.range poly.coefficients.length).foldlM (multiplyPolynomialByScalar.body poly scalar) result

/-- Body of the loop of `dividePolynomialByScalar` for index `i`:
`result[i] = poly[i] * scalar.modInverse(poly.mod); result[i] %= poly.mod`. -/
def dividePolynomialByScalar.body (poly : Polynomial) (scalar : BigInt)
    (result : Polynomial) (i : Nat) : Except (Failure × Polynomial) Polynomial :=
  match scalar.modInverse poly.mod with
  | .error e => .error (e, result)
  | .ok inverse =>
    let prod := BigInt.mul (poly.coefficients.getD i default) inverse
    match prod.modAssign poly.mod with
    | .ok r => .ok { result with coefficients := result.coefficients.set i r }
    | .error e => .error (e, { result with coefficients := result.coefficients.set i prod })

/-- Embeds `dividePolynomialByScalar(result, poly, scalar)`. -/
def dividePolynomialByScalar (result poly : Polynomial) (scalar : BigInt) :
    Except (Failure × Polynomial) Polynomial :=
  if scalar.isZero then
    .error (.invalidArgument "Division by zero is not allowed.", result)
  else
    let result : Polynomial :=
      { coefficients := vector_resize result.coefficients poly.coefficients.length BigInt.new,
        mod := poly.mod }
    (List.range poly.coefficients.length).foldlM (dividePolynomialByScalar.body poly scalar) result

/-! ## Lagrange interpolation (src/src/interpolation.cpp) -/

/-- The struct `Data`: a sample point `(x, y)`. -/
structure Data where
  x : BigInt
  y : BigInt
  deriving DecidableEq, Repr

instance : Inhabited Data := ⟨⟨BigInt.new, BigInt.new⟩⟩

/-- Embeds `Data::Data(xStr, yStr, modStr)`: parses the three decimal strings, then
reduces with `x %= mod; y %= mod`. -/
def Data.new (xVal yVal modVal : Int) : Except Failure Data :=
  match BigInt.modAssign ⟨xVal⟩ ⟨modVal⟩ with
  | .error e => .error e
  | .ok x =>
    match BigInt.modAssign ⟨yVal⟩ ⟨modVal⟩ with
    | .error e => .error e
    | .ok y => .ok ⟨x, y⟩

/-- Body of the inner loop of `interpolate` for indices `i`, `j`. -/
def interpolate.body (f : List Data) (xi mod : BigInt) (i : Nat) (term : BigInt) (j : Nat) :
    Except Failure BigInt :=
  if j ≠ i then
    let denom := BigInt.sub (f.getD i default).x (f.getD j default).x
    match denom.modAssign mod with
    | .error e => .error e
    | .ok denom =>
      match denom.modInverse mod with
      | .error e => .error e
      | .ok inverse =>
        let term := term.mulAssign (BigInt.mul (BigInt.sub xi (f.getD j default).x) inverse)
        term.modAssign mod
  else .ok term

/-- Body of the outer loop of `interpolate` for index `i`. -/
def interpolate.row (f : List Data) (xi mod : BigInt) (result : BigInt) (i : Nat) :
    Except Failure BigInt :=
  match (List.range f.length).foldlM (interpolate.body f xi mod i) (f.getD i default).y with
  | .error e => .error e
  | .ok term => (result.addAssign term).modAssign mod

/-- Embeds `interpolate(f, xi, modStr)`; `modVal` is the integer `modStr` denotes. -/
def interpolate (f : List Data) (xi : BigInt) (modVal : Int) : Except Failure BigInt :=
  (List.range f.length).foldlM (interpolate.row f xi ⟨modVal⟩) ⟨0⟩

/-! ## The test program (src/src/test.cpp) -/

/-- GMP `mpz_add_ui(rop, op1, op2)`: sets `rop` to `op1 + op2`, the second operand
an unsigned long. -/
def mpz_add_ui (op1 : Int) (op2 : Nat) : Int := op1 + (op2 : Int)

/-- The number of 64-bit limbs of the natural number `n`: 64 bits are dropped
until nothing is left (`fuel` bounds the number of rounds). -/
def mpz_size.limbs : Nat → Nat → Nat
  | 0, _ => 0
  | fuel + 1, n => if n = 0 then 0 else mpz_size.limbs fuel (n / 2 ^ 64) + 1

/-- GMP `mpz_size(op)`: the number of 64-bit limbs `op` occupies, none for 0. -/
def mpz_size (op : Int) : Nat := mpz_size.limbs op.natAbs op.natAbs

/-- The largest number of limbs an `mpz_t` can have: its size field is an `int`,
and GMP refuses to allocate more than `INT_MAX` limbs. -/
def mpz_max_limbs : Nat := 2 ^ 31 - 1

/-- GMP `mpz_mul_ui(rop, op1, op2)`: sets `rop` to `op1 * op2`, the second operand
an unsigned long.  For non-zero operands GMP first makes room for one limb more
than `op1` occupies; asked for more than `INT_MAX` limbs it aborts the process
("gmp: overflow in mpz type"). -/
def mpz_mul_ui (op1 : Int) (op2 : Nat) : Except Failure Int :=
  if op1 = 0 ∨ op2 = 0 then .ok 0
  else if mpz_max_limbs < mpz_size op1 + 1 then .error .mpzOverflow
  else .ok (op1 * (op2 : Int))

/-- The loop of `E`:
`for (mpz_t i; mpz_cmp(i, exp) < 0; mpz_add_ui(i, i, 1)) mpz_mul_ui(rop, rop, 2);`
run from the counter value `i` and the accumulator `rop` for at most `fuel`
iterations; `none` when the fuel runs out before the condition fails, and the
fault when GMP aborts in the multiplication. -/
def E.loop (exp : Int) : Nat → Int → Int → Option (Except Failure Int)
  | 0, i, rop => if mpz_cmp i exp < 0 then none else some (.ok rop)
  | fuel + 1, i, rop =>
    if mpz_cmp i exp < 0 then
      match mpz_mul_ui rop 2 with
      | .error e => some (.error e)
      | .ok rop' => E.loop exp fuel (mpz_add_ui i 1) rop'
    else some (.ok rop)

/-- Embeds `E(rop, exp)` of test.cpp: `mpz_set_ui(rop, 1)`, then the loop.  The
source declares the counter `mpz_t i` and never initialises it (there is no
`mpz_init(i)`), so the first `mpz_cmp(i, exp)` reads whatever the stack holds at
that place: undefined behaviour in C++.  `stack` is the integer those bytes
happen to denote; the program does nothing to fix it. -/
def E (fuel : Nat) (stack : Int) (exp : Int) : Option (Except Failure Int) :=
  E.loop exp fuel stack 1

/-- Embeds `test_homomorphic_holding` of test.cpp for the values `x`, `y` of its two
decimal strings: `E(E_x, x); E(E_y, y); mpz_div(E_x_minus_y, E_x, E_y);
E(E_one, one);` and the comparison `mpz_cmp(E_x_minus_y, E_one) == 0`, `true`
standing for the branch that prints "Proof accepted" and `false` for the branch
that prints "Proof rejected".  (`mpz_div` is GMP's old name of `mpz_fdiv_q`.)
`stackx`, `stacky`, `stack1` are what the uninitialised counters of the three
calls of `E` happen to hold; `none` when the fuel does not suffice, a fault when
GMP ends the process. -/
def test_homomorphic_holding (fuel : Nat) (stackx stacky stack1 : Int) (x y : Int) :
    Option (Except Failure Bool) :=
  match E fuel stackx x with
  | none => none
  | some (.error e) => some (.error e)
  | some (.ok E_x) =>
    match E fuel stacky y with
    | none => none
    | some (.error e) => some (.error e)
    | some (.ok E_y) =>
      match mpz_fdiv_q E_x E_y with
      | .error e => some (.error e)
      | .ok E_x_minus_y =>
        match E fuel stack1 1 with
        | none => none
        | some (.error e) => some (.error e)
        | some (.ok E_one) => some (.ok (decide (mpz_cmp E_x_minus_y E_one = 0)))

/-! ## Quantities the statements below are phrased with -/

/-- The integer sum of the products `a_i' * b_j'` with `i' + j' = k` over the
index pairs the double loop has visited when it is about to run `(i, j)`. -/
def visitedSum (a b : Polynomial) (i j k : Nat) : Int :=
  (∑ i' ∈ Finset.range i, ∑ j' ∈ Finset.range b.coefficients.length,
      if i' + j' = k then (a.coefficients.getD i' default).value *
        (b.coefficients.getD j' default).value else 0) +
    ∑ j' ∈ Finset.range j,
      if i + j' = k then (a.coefficients.getD i default).value *
        (b.coefficients.getD j' default).value else 0

/-- The factor `(xi - x_j) * (x_i - x_j)⁻¹` of the `i`-th Lagrange basis value,
in `ZMod p`. -/
def basisFactor (p : Nat) (f : List Data) (xi : BigInt) (i j : Nat) : ZMod p :=
  ((xi.value : ZMod p) - ((f.getD j default).x.value : ZMod p)) *
    (((f.getD i default).x.value : ZMod p) - ((f.getD j default).x.value : ZMod p))⁻¹

/-- The sample points of `main` in interpolation.cpp (samples of `x²`), as the
`Data` constructor leaves them for the modulus 101. -/
def mainPoints : List Data :=
  [⟨⟨1⟩, ⟨1⟩⟩, ⟨⟨2⟩, ⟨4⟩⟩, ⟨⟨3⟩, ⟨9⟩⟩, ⟨⟨4⟩, ⟨16⟩⟩, ⟨⟨5⟩, ⟨25⟩⟩]

end SnarkCpp

/-! # Theorems -/

namespace SnarkCpp

/-! ## Basic facts about the primitives -/

theorem mpz_cmp_eq_zero_iff (a b : Int) : mpz_cmp a b = 0 ↔ a = b := by
  unfold mpz_cmp
  rw [Int.sign_eq_zero_iff_zero]
  omega

theorem BigInt.eq_iff (a b : BigInt) : a.eq b = true ↔ a = b := by
  cases a; cases b
  simp [BigInt.eq, mpz_cmp_eq_zero_iff]

theorem BigInt.ne_iff (a b : BigInt) : a.ne b = true ↔ a ≠ b := by
  cases a; cases b
  simp [BigInt.ne, BigInt.eq, mpz_cmp_eq_zero_iff]

theorem BigInt.ne_self (a : BigInt) : a.ne a = false := by
  cases a
  simp [BigInt.ne, BigInt.eq, mpz_cmp_eq_zero_iff]

theorem BigInt.isZero_iff (a : BigInt) : a.isZero = true ↔ a.value = 0 := by
  simp [BigInt.isZero, mpz_cmp_ui, Int.sign_eq_zero_iff_zero]

theorem BigInt.mod_ok (a b : BigInt) (h : b.value ≠ 0) :
    a.mod b = .ok ⟨a.value % b.value⟩ := by
  simp [BigInt.mod, mpz_mod, h]

theorem BigInt.modAssign_ok (a b : BigInt) (h : b.value ≠ 0) :
    a.modAssign b = .ok ⟨a.value % b.value⟩ := by
  simp [BigInt.modAssign, mpz_mod, h]

theorem BigInt.div_ok (a b : BigInt) (h : b.value ≠ 0) :
    a.div b = .ok ⟨Int.fdiv a.value b.value⟩ := by
  simp [BigInt.div, mpz_fdiv_q, h]

/-- What `mpz_invert` returns is a residue in `[0, |m|)` inverse to `a` modulo `m`. -/
theorem mpz_invert_some {a m r : Int} (h : mpz_invert a m = some r) :
    0 ≤ r ∧ r < |m| ∧ (a * r - 1) % m = 0 := by
  unfold mpz_invert at h
  have hp := List.find?_some h
  have hmem := List.mem_of_find?_eq_some h
  simp only [List.mem_map, List.mem_range] at hmem
  obtain ⟨k, hk, rfl⟩ := hmem
  refine ⟨Int.ofNat_nonneg k, ?_, by simpa using hp⟩
  rw [Int.abs_eq_natAbs]
  show (k : Int) < _
  exact_mod_cast hk

/-- An inverse can only be reported for coprime arguments. -/
theorem mpz_invert_gcd {a m r : Int} (h : mpz_invert a m = some r) : Int.gcd a m = 1 := by
  obtain ⟨-, -, hr⟩ := mpz_invert_some h
  obtain ⟨c, hc⟩ := Int.dvd_of_emod_eq_zero hr
  rw [← Int.isCoprime_iff_gcd_eq_one]
  exact ⟨r, -c, by linarith⟩

/-- For a non-zero modulus coprime to `a`, `mpz_invert` reports an inverse. -/
theorem mpz_invert_of_gcd {a m : Int} (hm : m ≠ 0) (h : Int.gcd a m = 1) :
    ∃ r, mpz_invert a m = some r := by
  have hnn : 0 ≤ Int.gcdA a m % m := Int.emod_nonneg _ hm
  have hlt : Int.gcdA a m % m < |m| := Int.emod_lt _ hm
  have hone : (1 : Int) = a * Int.gcdA a m + m * Int.gcdB a m := by
    have := Int.gcd_eq_gcd_ab a m
    rw [h] at this
    exact_mod_cast this
  have hinv : (a * (Int.gcdA a m % m) - 1) % m = 0 := by
    apply Int.emod_eq_zero_of_dvd
    have h1 : a * (Int.gcdA a m % m) - 1
        = m * (-(a * (Int.gcdA a m / m)) - Int.gcdB a m) := by
      have := Int.emod_add_ediv (Int.gcdA a m) m
      have h2 : Int.gcdA a m % m = Int.gcdA a m - m * (Int.gcdA a m / m) := by linarith
      rw [h2]
      linear_combination (-1 : Int) * hone
    exact ⟨_, h1⟩
  have hmem : (Int.gcdA a m % m) ∈ (List.range m.natAbs).map Int.ofNat := by
    simp only [List.mem_map, List.mem_range]
    refine ⟨(Int.gcdA a m % m).toNat, ?_, ?_⟩
    · rw [Int.abs_eq_natAbs] at hlt
      omega
    · simpa using hnn
  cases hfind : mpz_invert a m with
  | some r => exact ⟨r, rfl⟩
  | none =>
    exfalso
    unfold mpz_invert at hfind
    rw [List.find?_eq_none] at hfind
    exact hfind _ hmem (by simpa using hinv)

/-- The inverse reported by `mpz_invert` is the only inverse residue in `[0, |m|)`. -/
theorem mpz_invert_unique {a m r s : Int} (h : mpz_invert a m = some r)
    (hs0 : 0 ≤ s) (hs1 : s < |m|) (hs : (a * s - 1) % m = 0) : s = r := by
  obtain ⟨hr0, hr1, hr⟩ := mpz_invert_some h
  have hd : m ∣ r - s := by
    obtain ⟨c, hc⟩ := Int.dvd_of_emod_eq_zero hr
    obtain ⟨d, hd⟩ := Int.dvd_of_emod_eq_zero hs
    exact ⟨s * c - r * d, by linear_combination s * hc - r * hd⟩
  have hd2 : |m| ∣ r - s := (abs_dvd m _).mpr hd
  have hlt : |r - s| < |m| := by
    rw [abs_lt]; constructor <;> linarith
  have := Int.eq_zero_of_abs_lt_dvd hd2 hlt
  linarith

theorem fmod_nonpos_of_neg (a : Int) {b : Int} (hb : b < 0) : Int.fmod a b ≤ 0 := by
  match a, b, hb with
  | 0, _, _ => simp
  | Int.ofNat (m + 1), Int.negSucc n, _ =>
    have := Nat.mod_lt m (Nat.succ_pos n)
    simp only [Int.fmod, Int.subNatNat_eq_coe]
    omega
  | Int.negSucc m, Int.negSucc n, _ =>
    simp only [Int.fmod]
    exact Int.neg_nonpos_of_nonneg (Int.ofNat_nonneg _)
  | Int.ofNat m, Int.ofNat n, h => exact absurd h (by simp)
  | Int.negSucc m, Int.ofNat n, h => exact absurd h (by simp)

/-- For a non-zero divisor the floor quotient and the non-negative remainder
recombine to the dividend exactly when the divisor is positive or divides it. -/
theorem fdiv_mul_add_emod_iff (a b : Int) (hb : b ≠ 0) :
    Int.fdiv a b * b + a % b = a ↔ (0 < b ∨ b ∣ a) := by
  have key := Int.fdiv_add_fmod a b
  have hiff : Int.fdiv a b * b + a % b = a ↔ a % b = Int.fmod a b := by
    constructor <;> intro h <;> linarith [mul_comm (Int.fdiv a b) b]
  rw [hiff]
  rcases lt_or_gt_of_ne hb with hneg | hpos
  · have h1 := fmod_nonpos_of_neg a hneg
    have h2 : 0 ≤ a % b := Int.emod_nonneg a hb
    constructor
    · intro h
      right
      exact Int.dvd_of_emod_eq_zero (by omega)
    · rintro (h | h)
      · omega
      · rw [Int.emod_eq_zero_of_dvd h, Int.fmod_def, Int.fdiv_eq_ediv_of_dvd h,
          Int.mul_ediv_cancel' h]
        simp
  · constructor
    · intro _; left; exact hpos
    · intro _; rw [Int.fmod_eq_emod a (le_of_lt hpos)]

/-- C2, at a negative divisor: `1 / -2` is `-1` (floor) while `1 % -2` is `1`
(`mpz_mod` ignores the sign of the divisor), so `(a / b) * b + (a % b)` is
`3`, not `a = 1`. -/
theorem C2_counterexample :
    BigInt.div ⟨1⟩ ⟨-2⟩ = .ok ⟨-1⟩ ∧ BigInt.mod ⟨1⟩ ⟨-2⟩ = .ok ⟨1⟩ ∧
      BigInt.add (BigInt.mul ⟨-1⟩ ⟨-2⟩) ⟨1⟩ = ⟨3⟩ ∧
      BigInt.eq (BigInt.add (BigInt.mul ⟨-1⟩ ⟨-2⟩) ⟨1⟩) ⟨1⟩ = false := by
  decide

/-- C2 (amended): for every `a` and every non-zero `b`, `a / b` and `a % b`
both return, and `(a / b) * b + (a % b) == a` holds exactly when `b` is
positive or `b` divides `a`; in particular it holds for every positive `b`. -/
theorem C2_div_mul_add_mod (a b : BigInt) (hb : b.value ≠ 0) :
    ∃ q r, a.div b = .ok q ∧ a.mod b = .ok r ∧
      (BigInt.eq (BigInt.add (BigInt.mul q b) r) a = true ↔
        (0 < b.value ∨ b.value ∣ a.value)) ∧
      (0 < b.value → BigInt.eq (BigInt.add (BigInt.mul q b) r) a = true) := by
  refine ⟨_, _, BigInt.div_ok a b hb, BigInt.mod_ok a b hb, ?_, ?_⟩
  · rw [BigInt.eq_iff, ← fdiv_mul_add_emod_iff a.value b.value hb]
    cases a; cases b
    simp [BigInt.add, BigInt.mul, mpz_add, mpz_mul]
  · intro hpos
    rw [BigInt.eq_iff]
    have := (fdiv_mul_add_emod_iff a.value b.value hb).mpr (Or.inl hpos)
    cases a; cases b
    simpa [BigInt.add, BigInt.mul, mpz_add, mpz_mul] using this

/-- The amended C2 at `a = -7`, `b = 2`. -/
theorem C2_div_mul_add_mod_witness :
    (2 : Int) ≠ 0 ∧ ∃ q r, BigInt.div ⟨-7⟩ ⟨2⟩ = .ok q ∧ BigInt.mod ⟨-7⟩ ⟨2⟩ = .ok r ∧
      (BigInt.eq (BigInt.add (BigInt.mul q ⟨2⟩) r) ⟨-7⟩ = true ↔
        (0 < (2 : Int) ∨ (2 : Int) ∣ -7)) ∧
      (0 < (2 : Int) → BigInt.eq (BigInt.add (BigInt.mul q ⟨2⟩) r) ⟨-7⟩ = true) :=
  ⟨by decide, C2_div_mul_add_mod ⟨-7⟩ ⟨2⟩ (by decide)⟩

/-- C3, at a negative divisor: `1 % -2` is `1`, which is neither zero nor
negative. -/
theorem C3_counterexample :
    BigInt.mod ⟨1⟩ ⟨-2⟩ = .ok ⟨1⟩ ∧ BigInt.modAssign ⟨1⟩ ⟨-2⟩ = .ok ⟨1⟩ ∧
      ¬ ((1 : Int) = 0 ∨ (1 : Int) < 0) := by
  decide

/-- C3 (amended): for every `a` and every non-zero `b`, `a % b` (and `a %= b`)
returns the remainder `r` with `0 ≤ r < |b|` and `r ≡ a (mod b)`: it is never
negative, whatever the sign of `b`; so it is zero or has the sign of `b`
exactly when `b > 0` or `b` divides `a`. -/
theorem C3_mod_range (a b : BigInt) (hb : b.value ≠ 0) :
    ∃ r, a.mod b = .ok r ∧ a.modAssign b = .ok r ∧
      0 ≤ r.value ∧ r.value < |b.value| ∧ b.value ∣ a.value - r.value ∧
      ((r.value = 0 ∨ Int.sign r.value = Int.sign b.value) ↔
        (0 < b.value ∨ b.value ∣ a.value)) := by
  refine ⟨_, BigInt.mod_ok a b hb, BigInt.modAssign_ok a b hb, Int.emod_nonneg _ hb,
    Int.emod_lt _ hb, Int.dvd_sub_of_emod_eq rfl, ?_⟩
  show (a.value % b.value = 0 ∨ _) ↔ _
  have h0 : 0 ≤ a.value % b.value := Int.emod_nonneg _ hb
  rcases lt_or_gt_of_ne hb with hneg | hpos
  · rw [Int.sign_eq_neg_one_of_neg hneg]
    constructor
    · rintro (h | h)
      · exact Or.inr (Int.dvd_of_emod_eq_zero h)
      · have : a.value % b.value < 0 := Int.sign_eq_neg_one_iff_neg.mp h
        omega
    · rintro (h | h)
      · omega
      · exact Or.inl (Int.emod_eq_zero_of_dvd h)
  · rw [Int.sign_eq_one_of_pos hpos]
    constructor
    · intro _; exact Or.inl hpos
    · intro _
      rcases eq_or_lt_of_le h0 with h | h
      · exact Or.inl h.symm
      · exact Or.inr (Int.sign_eq_one_of_pos h)

/-- The amended C3 at `a = -7`, `b = -3`. -/
theorem C3_mod_range_witness :
    (-3 : Int) ≠ 0 ∧ ∃ r, BigInt.mod ⟨-7⟩ ⟨-3⟩ = .ok r ∧ BigInt.modAssign ⟨-7⟩ ⟨-3⟩ = .ok r ∧
      0 ≤ r.value ∧ r.value < |(-3 : Int)| ∧ (-3 : Int) ∣ -7 - r.value ∧
      ((r.value = 0 ∨ Int.sign r.value = Int.sign (-3 : Int)) ↔
        (0 < (-3 : Int) ∨ (-3 : Int) ∣ -7)) :=
  ⟨by decide, C3_mod_range ⟨-7⟩ ⟨-3⟩ (by decide)⟩

theorem one_emod_of_one_lt_abs {m : Int} (hm : 1 < |m|) : (1 : Int) % m = 1 := by
  rw [← Int.emod_abs]
  exact Int.emod_eq_of_lt (by decide) hm

/-- Success of `modInverse` in terms of `mpz_invert`. -/
theorem BigInt.modInverse_ok_iff (a m r : BigInt) :
    a.modInverse m = .ok r ↔ mpz_invert a.value m.value = some r.value := by
  unfold BigInt.modInverse
  cases h : mpz_invert a.value m.value with
  | none => simp
  | some v =>
    cases r
    simp

theorem BigInt.modInverse_error_iff (a m : BigInt) (e : Failure) :
    a.modInverse m = .error e ↔
      (mpz_invert a.value m.value = none ∧ e = .runtimeError "Modular inverse does not exist.") := by
  unfold BigInt.modInverse
  cases h : mpz_invert a.value m.value with
  | none => simp [eq_comm]
  | some v => simp

/-- C4, at modulus 1: `gcd(5, 1) = 1` and `modInverse` returns `0`, but
`(5 * 0) % 1` is `0`, not `1`. -/
theorem C4_counterexample :
    Int.gcd 5 1 = 1 ∧ BigInt.modInverse ⟨5⟩ ⟨1⟩ = .ok ⟨0⟩ ∧
      BigInt.mod (BigInt.mul ⟨5⟩ ⟨0⟩) ⟨1⟩ = .ok ⟨0⟩ ∧ BigInt.eq ⟨0⟩ ⟨1⟩ = false := by
  decide

/-- C4 (amended): for all `a` and `m` with `m ≠ 0` and `gcd(a, m) = 1`,
`a.modInverse(m)` returns an inverse `v` with `0 ≤ v < |m|`, and
`(a * v) % m` returns `1 % m`; this is `1` whenever `|m| > 1`. -/
theorem C4_modInverse_mul (a m : BigInt) (hm : m.value ≠ 0)
    (hg : Int.gcd a.value m.value = 1) :
    ∃ v r, a.modInverse m = .ok v ∧ 0 ≤ v.value ∧ v.value < |m.value| ∧
      BigInt.mod (BigInt.mul a v) m = .ok r ∧ r.value = 1 % m.value ∧
      (1 < |m.value| → BigInt.eq r ⟨1⟩ = true) := by
  obtain ⟨v, hv⟩ := mpz_invert_of_gcd hm hg
  obtain ⟨h0, h1, h2⟩ := mpz_invert_some hv
  have hr : (a.value * v) % m.value = 1 % m.value :=
    Int.emod_eq_emod_iff_emod_sub_eq_zero.mpr h2
  refine ⟨⟨v⟩, ⟨(a.value * v) % m.value⟩, (BigInt.modInverse_ok_iff a m ⟨v⟩).mpr hv, h0, h1,
    ?_, hr, ?_⟩
  · rw [BigInt.mod_ok _ _ hm]
    rfl
  · intro hlt
    rw [BigInt.eq_iff]
    show BigInt.mk (a.value * v % m.value) = ⟨1⟩
    rw [hr, one_emod_of_one_lt_abs hlt]

/-- The amended C4 at `a = 3`, `m = -7`. -/
theorem C4_modInverse_mul_witness :
    (-7 : Int) ≠ 0 ∧ Int.gcd 3 (-7) = 1 ∧ ∃ v r, BigInt.modInverse ⟨3⟩ ⟨-7⟩ = .ok v ∧ 0 ≤ v.value ∧ v.value < |(-7 : Int)| ∧
      BigInt.mod (BigInt.mul ⟨3⟩ v) ⟨-7⟩ = .ok r ∧ r.value = 1 % (-7 : Int) ∧
      (1 < |(-7 : Int)| → BigInt.eq r ⟨1⟩ = true) :=
  ⟨by decide, by decide, C4_modInverse_mul ⟨3⟩ ⟨-7⟩ (by decide) (by decide)⟩

/-- C5: for all `a` and `m` with `m ≠ 0`, `a.modInverse(m)` throws the
runtime error "Modular inverse does not exist." if and only if
`gcd(a, m) ≠ 1`; it fails in no other way, and when `gcd(a, m) = 1` it
returns a value.  (The receiver is passed by value here, as the method is
`const`: the call has no effect on it.) -/
theorem C5_modInverse_fails_iff (a m : BigInt) (hm : m.value ≠ 0) :
    (a.modInverse m = .error (.runtimeError "Modular inverse does not exist.") ↔
        Int.gcd a.value m.value ≠ 1) ∧
      (∀ e, a.modInverse m = .error e →
        e = .runtimeError "Modular inverse does not exist.") ∧
      (Int.gcd a.value m.value = 1 → ∃ v, a.modInverse m = .ok v) := by
  refine ⟨?_, ?_, ?_⟩
  · rw [BigInt.modInverse_error_iff]
    constructor
    · rintro ⟨hnone, -⟩ hg
      obtain ⟨v, hv⟩ := mpz_invert_of_gcd hm hg
      rw [hnone] at hv
      exact absurd hv (by simp)
    · intro hg
      refine ⟨?_, rfl⟩
      cases h : mpz_invert a.value m.value with
      | none => rfl
      | some v => exact absurd (mpz_invert_gcd h) hg
  · intro e he
    exact ((BigInt.modInverse_error_iff a m e).mp he).2
  · intro hg
    obtain ⟨v, hv⟩ := mpz_invert_of_gcd hm hg
    exact ⟨⟨v⟩, (BigInt.modInverse_ok_iff a m ⟨v⟩).mpr hv⟩

/-- C5 at `a = 4`, `m = 6`, where no inverse exists. -/
theorem C5_modInverse_fails_iff_witness :
    (6 : Int) ≠ 0 ∧ (BigInt.modInverse ⟨4⟩ ⟨6⟩ = .error (.runtimeError "Modular inverse does not exist.") ↔
        Int.gcd 4 6 ≠ 1) ∧
      (∀ e, BigInt.modInverse ⟨4⟩ ⟨6⟩ = .error e →
        e = .runtimeError "Modular inverse does not exist.") ∧
      (Int.gcd 4 6 = 1 → ∃ v, BigInt.modInverse ⟨4⟩ ⟨6⟩ = .ok v) :=
  ⟨by decide, C5_modInverse_fails_iff ⟨4⟩ ⟨6⟩ (by decide)⟩

/-! ## Loops -/

theorem except_ok_bind {ε α β : Type} (a : α) (f : α → Except ε β) :
    (Except.ok a >>= f) = f a := rfl

theorem except_error_bind {ε α β : Type} (e : ε) (f : α → Except ε β) :
    ((Except.error e : Except ε α) >>= f) = Except.error e := rfl

theorem foldlM_range_succ {ε σ : Type} (body : σ → Nat → Except ε σ) (n : Nat) (s0 : σ) :
    (List.range (n + 1)).foldlM body s0 = ((List.range n).foldlM body s0 >>= fun s => body s n) := by
  rw [List.range_succ, List.foldlM_append]
  congr 1
  funext s
  simp only [List.foldlM_cons, List.foldlM_nil]
  cases body s n <;> rfl

/-- A counted loop whose body returns normally and re-establishes the invariant
runs to completion, and the invariant holds for the final state. -/
theorem foldlM_range_inv {ε σ : Type} (body : σ → Nat → Except ε σ) (Inv : Nat → σ → Prop)
    (n : Nat) (s0 : σ) (h0 : Inv 0 s0)
    (hstep : ∀ i, i < n → ∀ s, Inv i s → ∃ s', body s i = .ok s' ∧ Inv (i + 1) s') :
    ∃ s, (List.range n).foldlM body s0 = .ok s ∧ Inv n s := by
  induction n with
  | zero => exact ⟨s0, rfl, h0⟩
  | succ n ih =>
    obtain ⟨s, hs, hinv⟩ := ih (fun i hi => hstep i (Nat.lt_succ_of_lt hi))
    obtain ⟨s', hs', hinv'⟩ := hstep n (Nat.lt_succ_self n) s hinv
    refine ⟨s', ?_, hinv'⟩
    rw [foldlM_range_succ, hs, except_ok_bind, hs']

/-- Writing `g i` at place `i` extends an initial segment that already agrees with `g`. -/
theorem set_agree_step {α : Type} (g : Nat → α) (l : List α) (n i : Nat) (hi : i < n)
    (hlen : l.length = n) (hpre : ∀ k, k < i → l[k]? = some (g k)) :
    (l.set i (g i)).length = n ∧ ∀ k, k < i + 1 → (l.set i (g i))[k]? = some (g k) := by
  refine ⟨by simpa using hlen, ?_⟩
  intro k hk
  rw [List.getElem?_set]
  by_cases hik : i = k
  · subst hik
    simp [hlen, hi]
  · simp only [hik, if_false]
    exact hpre k (by omega)

/-- A list of length `n` that agrees with `g` everywhere is `g` tabulated. -/
theorem eq_map_range_of_agree {α : Type} (g : Nat → α) (l : List α) (n : Nat)
    (hlen : l.length = n) (hpre : ∀ k, k < n → l[k]? = some (g k)) :
    l = (List.range n).map g := by
  apply List.ext_getElem?
  intro k
  by_cases hk : k < n
  · rw [hpre k hk]
    simp [hk]
  · have h1 : l.length ≤ k := by omega
    rw [List.getElem?_eq_none h1]
    symm
    apply List.getElem?_eq_none
    simp
    omega

theorem vector_resize_length (v : List BigInt) (n : Nat) (val : BigInt) :
    (vector_resize v n val).length = n := by
  simp [vector_resize]
  omega

/-! ## addPolynomials -/

theorem padded_coefficient (l : List BigInt) (i : Nat) :
    (if i < l.length then l.getD i default else BigInt.ofNat 0) = l.getD i ⟨0⟩ := by
  by_cases h : i < l.length
  · simp [h, List.getD_eq_getElem?_getD]
  · have h' : l.length ≤ i := by omega
    simp [h, List.getD_eq_getElem?_getD, List.getElem?_eq_none h', BigInt.ofNat]

/-- With a non-zero modulus the loop body of `addPolynomials` stores the reduced sum. -/
theorem addPolynomials_body_ok (a b result : Polynomial) (i : Nat) (hm : a.mod.value ≠ 0) :
    addPolynomials.body a b result i = .ok { result with
      coefficients := result.coefficients.set i
        ⟨((a.coefficients.getD i ⟨0⟩).value + (b.coefficients.getD i ⟨0⟩).value) % a.mod.value⟩ } := by
  unfold addPolynomials.body
  simp only [padded_coefficient]
  rw [BigInt.modAssign_ok _ _ hm]
  rfl

/-- With equal, non-zero moduli `addPolynomials` returns, and the final state of
`result` is the tabulated reduced sum, whatever `result` held before. -/
theorem addPolynomials_ok (result a b : Polynomial) (hmod : a.mod = b.mod)
    (hm : a.mod.value ≠ 0) :
    addPolynomials result a b = .ok
      { coefficients := (List.range (max a.coefficients.length b.coefficients.length)).map
          (fun i => ⟨((a.coefficients.getD i ⟨0⟩).value + (b.coefficients.getD i ⟨0⟩).value)
            % a.mod.value⟩),
        mod := a.mod } := by
  unfold addPolynomials
  rw [← hmod, BigInt.ne_self]
  simp only [Bool.false_eq_true, if_false]
  obtain ⟨r, hr, hmodr, hlen, hpre⟩ := foldlM_range_inv (addPolynomials.body a b)
    (fun i r => r.mod = a.mod ∧
      r.coefficients.length = max a.coefficients.length b.coefficients.length ∧
      ∀ k, k < i → r.coefficients[k]? = some
        ⟨((a.coefficients.getD k ⟨0⟩).value + (b.coefficients.getD k ⟨0⟩).value) % a.mod.value⟩)
    (max a.coefficients.length b.coefficients.length)
    { coefficients := vector_resize result.coefficients
        (max a.coefficients.length b.coefficients.length) BigInt.new, mod := a.mod }
    ⟨rfl, vector_resize_length _ _ _, fun k hk => absurd hk (Nat.not_lt_zero k)⟩
    (by
      intro i hi s ⟨hs1, hs2, hs3⟩
      refine ⟨_, addPolynomials_body_ok a b s i hm, hs1, ?_⟩
      exact set_agree_step _ s.coefficients _ i hi hs2 hs3)
  rw [hr]
  congr 1
  cases r
  simp only [Polynomial.mk.injEq]
  exact ⟨eq_map_range_of_agree _ _ _ hlen hpre, hmodr⟩

/-- C9: for polynomials `a`, `b` sharing a modulus `m > 0` and any prior
contents of `result`, `addPolynomials` returns with `result` holding modulus
`m` and exactly `max(len a, len b)` coefficients, the `i`-th being
`(a_i + b_i) mod m`, a value in `[0, m)`, where a coefficient missing from the
shorter operand counts as 0. -/
theorem C9_addPolynomials (result a b : Polynomial) (hmod : a.mod = b.mod)
    (hm : 0 < a.mod.value) :
    ∃ r, addPolynomials result a b = .ok r ∧ r.mod = a.mod ∧
      r.coefficients.length = max a.coefficients.length b.coefficients.length ∧
      ∀ i, i < max a.coefficients.length b.coefficients.length →
        ∃ c, r.coefficients[i]? = some c ∧
          c.value = ((a.coefficients.getD i ⟨0⟩).value + (b.coefficients.getD i ⟨0⟩).value)
            % a.mod.value ∧
          0 ≤ c.value ∧ c.value < a.mod.value := by
  refine ⟨_, addPolynomials_ok result a b hmod (ne_of_gt hm), rfl, by simp, ?_⟩
  intro i hi
  refine ⟨_, by simp [hi], rfl, Int.emod_nonneg _ (ne_of_gt hm), Int.emod_lt_of_pos _ hm⟩

/-- The sum computed by the demo program: C9 applied to it, and the coefficients
by evaluation. -/
theorem C9_addPolynomials_witness :
    (Polynomial.new [1, -2, 3, 15] 7).mod = (Polynomial.new [-3, 4, 2] 7).mod ∧
    0 < (Polynomial.new [1, -2, 3, 15] 7).mod.value ∧
    (∃ r, addPolynomials (Polynomial.new [] 7) (Polynomial.new [1, -2, 3, 15] 7)
        (Polynomial.new [-3, 4, 2] 7) = .ok r ∧ r.mod = (Polynomial.new [1, -2, 3, 15] 7).mod ∧
      r.coefficients.length = max (Polynomial.new [1, -2, 3, 15] 7).coefficients.length
        (Polynomial.new [-3, 4, 2] 7).coefficients.length ∧
      ∀ i, i < max (Polynomial.new [1, -2, 3, 15] 7).coefficients.length
          (Polynomial.new [-3, 4, 2] 7).coefficients.length →
        ∃ c, r.coefficients[i]? = some c ∧
          c.value = (((Polynomial.new [1, -2, 3, 15] 7).coefficients.getD i ⟨0⟩).value +
            ((Polynomial.new [-3, 4, 2] 7).coefficients.getD i ⟨0⟩).value)
            % (Polynomial.new [1, -2, 3, 15] 7).mod.value ∧
          0 ≤ c.value ∧ c.value < (Polynomial.new [1, -2, 3, 15] 7).mod.value) ∧
    addPolynomials (Polynomial.new [] 7) (Polynomial.new [1, -2, 3, 15] 7)
      (Polynomial.new [-3, 4, 2] 7) = .ok (Polynomial.new [5, 2, 5, 1] 7) :=
  ⟨by decide, by decide, C9_addPolynomials _ _ _ (by decide) (by decide), by decide⟩

/-- A loop whose first iteration fails, fails. -/
theorem foldlM_range_first_error {ε σ : Type} (body : σ → Nat → Except ε σ) (n : Nat) (s0 : σ)
    (e : ε) (hn : 0 < n) (h : body s0 0 = .error e) :
    (List.range n).foldlM body s0 = .error e := by
  obtain ⟨k, rfl⟩ : ∃ k, n = k + 1 := ⟨n - 1, by omega⟩
  rw [List.range_succ_eq_map, List.foldlM_cons, h]
  rfl

/-- With modulus zero and a non-empty operand, `addPolynomials` stops at the first
reduction with GMP's division by zero. -/
theorem addPolynomials_zero_mod (result a b : Polynomial) (hmod : a.mod = b.mod)
    (hm : a.mod.value = 0) (hpos : 0 < max a.coefficients.length b.coefficients.length) :
    (addPolynomials result a b).mapError Prod.fst = .error .divideByZero := by
  unfold addPolynomials
  rw [← hmod, BigInt.ne_self]
  simp only [Bool.false_eq_true, if_false]
  rw [foldlM_range_first_error _ _ _ _ hpos
    (by simp [addPolynomials.body, BigInt.modAssign, mpz_mod, hm]; rfl)]
  rfl

/-- C10: for polynomials `a`, `b` sharing a modulus and any prior states `r1`,
`r2` of the result arguments, `addPolynomials(r1, a, b)` and
`addPolynomials(r2, b, a)` end the same way: both return, with the same
coefficients and modulus in `r1` and `r2`, or both stop with the same failure
(the latter only for modulus zero).  With a non-zero modulus both return. -/
theorem C10_addPolynomials_comm (r1 r2 a b : Polynomial) (hmod : a.mod = b.mod) :
    (addPolynomials r1 a b).mapError Prod.fst = (addPolynomials r2 b a).mapError Prod.fst ∧
      (a.mod.value ≠ 0 → ∃ r, addPolynomials r1 a b = .ok r ∧ addPolynomials r2 b a = .ok r) := by
  have hcomm : ∀ hm : a.mod.value ≠ 0,
      ∃ r, addPolynomials r1 a b = .ok r ∧ addPolynomials r2 b a = .ok r := by
    intro hm
    refine ⟨_, addPolynomials_ok r1 a b hmod hm, ?_⟩
    rw [addPolynomials_ok r2 b a hmod.symm (hmod ▸ hm), max_comm, ← hmod]
    simp only [add_comm]
  refine ⟨?_, hcomm⟩
  by_cases hm : a.mod.value = 0
  · by_cases hpos : 0 < max a.coefficients.length b.coefficients.length
    · rw [addPolynomials_zero_mod r1 a b hmod hm hpos,
        addPolynomials_zero_mod r2 b a hmod.symm (hmod ▸ hm) (by rwa [max_comm])]
    · have ha : a.coefficients.length = 0 := by omega
      have hb : b.coefficients.length = 0 := by omega
      unfold addPolynomials
      rw [← hmod, BigInt.ne_self]
      simp [ha, hb, vector_resize]
  · obtain ⟨r, h1, h2⟩ := hcomm hm
    rw [h1, h2]

/-- C10 on the two polynomials of the demo program, with different prior
contents of the result arguments. -/
theorem C10_addPolynomials_comm_witness :
    (Polynomial.new [1, -2, 3, 15] 7).mod = (Polynomial.new [-3, 4, 2] 7).mod ∧
    (addPolynomials (Polynomial.new [9, 9] 7) (Polynomial.new [1, -2, 3, 15] 7)
        (Polynomial.new [-3, 4, 2] 7)).mapError Prod.fst =
      (addPolynomials (Polynomial.new [] 7) (Polynomial.new [-3, 4, 2] 7)
        (Polynomial.new [1, -2, 3, 15] 7)).mapError Prod.fst ∧
      ((Polynomial.new [1, -2, 3, 15] 7).mod.value ≠ 0 →
        ∃ r, addPolynomials (Polynomial.new [9, 9] 7) (Polynomial.new [1, -2, 3, 15] 7)
            (Polynomial.new [-3, 4, 2] 7) = .ok r ∧
          addPolynomials (Polynomial.new [] 7) (Polynomial.new [-3, 4, 2] 7)
            (Polynomial.new [1, -2, 3, 15] 7) = .ok r) :=
  ⟨by decide, C10_addPolynomials_comm _ _ _ _ (by decide)⟩

/-! ## Scalar multiplication and division -/

theorem map_range_getD {α β : Type} (f : α → β) (l : List α) (d : α) :
    (List.range l.length).map (fun i => f (l.getD i d)) = l.map f := by
  apply List.ext_getElem?
  intro k
  by_cases hk : k < l.length
  · simp [hk, List.getD_eq_getElem?_getD, List.getElem?_eq_getElem hk]
  · have h1 : l.length ≤ k := by omega
    simp [List.getElem?_eq_none, h1]

theorem multiplyPolynomialByScalar_body_ok (poly : Polynomial) (scalar : BigInt)
    (result : Polynomial) (i : Nat) (hm : poly.mod.value ≠ 0) :
    multiplyPolynomialByScalar.body poly scalar result i = .ok { result with
      coefficients := result.coefficients.set i
        ⟨((poly.coefficients.getD i default).value * scalar.value) % poly.mod.value⟩ } := by
  unfold multiplyPolynomialByScalar.body
  dsimp only
  rw [BigInt.modAssign_ok _ _ hm]
  rfl

theorem dividePolynomialByScalar_body_ok (poly : Polynomial) (scalar : BigInt) (v : Int)
    (result : Polynomial) (i : Nat) (hm : poly.mod.value ≠ 0)
    (hv : mpz_invert scalar.value poly.mod.value = some v) :
    dividePolynomialByScalar.body poly scalar result i = .ok { result with
      coefficients := result.coefficients.set i
        ⟨((poly.coefficients.getD i default).value * v) % poly.mod.value⟩ } := by
  unfold dividePolynomialByScalar.body
  rw [(BigInt.modInverse_ok_iff scalar poly.mod ⟨v⟩).mpr hv]
  dsimp only
  rw [BigInt.modAssign_ok _ _ hm]
  rfl

/-- With a non-zero modulus `multiplyPolynomialByScalar` returns, and `result`
holds every coefficient of `poly` times `scalar`, reduced. -/
theorem multiplyPolynomialByScalar_ok (result poly : Polynomial) (scalar : BigInt)
    (hm : poly.mod.value ≠ 0) :
    multiplyPolynomialByScalar result poly scalar = .ok
      { coefficients := poly.coefficients.map
          (fun c => ⟨(c.value * scalar.value) % poly.mod.value⟩),
        mod := poly.mod } := by
  unfold multiplyPolynomialByScalar
  dsimp only
  obtain ⟨r, hr, hmodr, hlen, hpre⟩ := foldlM_range_inv
    (multiplyPolynomialByScalar.body poly scalar)
    (fun i r => r.mod = poly.mod ∧ r.coefficients.length = poly.coefficients.length ∧
      ∀ k, k < i → r.coefficients[k]? = some
        ((fun c : BigInt => BigInt.mk ((c.value * scalar.value) % poly.mod.value))
          (poly.coefficients.getD k default)))
    poly.coefficients.length
    { coefficients := vector_resize result.coefficients poly.coefficients.length BigInt.new,
      mod := poly.mod }
    ⟨rfl, vector_resize_length _ _ _, fun k hk => absurd hk (Nat.not_lt_zero k)⟩
    (by
      intro i hi s ⟨hs1, hs2, hs3⟩
      refine ⟨_, multiplyPolynomialByScalar_body_ok poly scalar s i hm, hs1, ?_⟩
      exact set_agree_step
          (fun k => BigInt.mk (((poly.coefficients.getD k default).value * scalar.value)
            % poly.mod.value)) s.coefficients _ i hi hs2 hs3)
  rw [hr]
  congr 1
  cases r
  simp only [Polynomial.mk.injEq]
  refine ⟨?_, hmodr⟩
  rw [← map_range_getD _ poly.coefficients default]
  exact eq_map_range_of_agree _ _ _ hlen hpre

/-- With a non-zero scalar that `mpz_invert` can invert modulo a non-zero
modulus, `dividePolynomialByScalar` returns, and `result` holds every
coefficient of `poly` times the inverse, reduced. -/
theorem dividePolynomialByScalar_ok (result poly : Polynomial) (scalar : BigInt) (v : Int)
    (hs : scalar.value ≠ 0) (hm : poly.mod.value ≠ 0)
    (hv : mpz_invert scalar.value poly.mod.value = some v) :
    dividePolynomialByScalar result poly scalar = .ok
      { coefficients := poly.coefficients.map (fun c => ⟨(c.value * v) % poly.mod.value⟩),
        mod := poly.mod } := by
  unfold dividePolynomialByScalar
  have hz : scalar.isZero = false := by
    rw [← Bool.not_eq_true, BigInt.isZero_iff]
    exact hs
  rw [hz]
  simp only [Bool.false_eq_true, if_false]
  obtain ⟨r, hr, hmodr, hlen, hpre⟩ := foldlM_range_inv
    (dividePolynomialByScalar.body poly scalar)
    (fun i r => r.mod = poly.mod ∧ r.coefficients.length = poly.coefficients.length ∧
      ∀ k, k < i → r.coefficients[k]? = some
        ((fun c : BigInt => BigInt.mk ((c.value * v) % poly.mod.value))
          (poly.coefficients.getD k default)))
    poly.coefficients.length
    { coefficients := vector_resize result.coefficients poly.coefficients.length BigInt.new,
      mod := poly.mod }
    ⟨rfl, vector_resize_length _ _ _, fun k hk => absurd hk (Nat.not_lt_zero k)⟩
    (by
      intro i hi s ⟨hs1, hs2, hs3⟩
      refine ⟨_, dividePolynomialByScalar_body_ok poly scalar v s i hm hv, hs1, ?_⟩
      exact set_agree_step
          (fun k => BigInt.mk (((poly.coefficients.getD k default).value * v)
            % poly.mod.value)) s.coefficients _ i hi hs2 hs3)
  rw [hr]
  congr 1
  cases r
  simp only [Polynomial.mk.injEq]
  refine ⟨?_, hmodr⟩
  rw [← map_range_getD _ poly.coefficients default]
  exact eq_map_range_of_agree _ _ _ hlen hpre

/-- Multiplying by `s` and then by an inverse of `s`, reducing after each step,
reduces the value once. -/
theorem emod_mul_inverse (c s v m : Int) (hv : (s * v - 1) % m = 0) :
    (c * s % m * v) % m = c % m := by
  have h1 : (c * s % m * v) % m = (c * s * v) % m := by
    rw [Int.mul_emod, Int.emod_emod, ← Int.mul_emod]
  rw [h1]
  apply Int.emod_eq_emod_iff_emod_sub_eq_zero.mpr
  obtain ⟨d, hd⟩ := Int.dvd_of_emod_eq_zero hv
  apply Int.emod_eq_zero_of_dvd
  exact ⟨c * d, by linear_combination c * hd⟩

/-- Scalar multiplication followed by scalar division by the same invertible,
non-zero scalar reduces every coefficient modulo the (non-zero) modulus. -/
theorem scalar_roundtrip (r1 r2 p : Polynomial) (s : BigInt) (hm : p.mod.value ≠ 0)
    (hs : s.value ≠ 0) (hg : Int.gcd s.value p.mod.value = 1) :
    ∃ q, multiplyPolynomialByScalar r1 p s = .ok q ∧
      dividePolynomialByScalar r2 q s = .ok
        { coefficients := p.coefficients.map (fun c => ⟨c.value % p.mod.value⟩),
          mod := p.mod } := by
  obtain ⟨v, hv⟩ := mpz_invert_of_gcd hm hg
  refine ⟨_, multiplyPolynomialByScalar_ok r1 p s hm, ?_⟩
  rw [dividePolynomialByScalar_ok r2
    { coefficients := p.coefficients.map (fun c => ⟨(c.value * s.value) % p.mod.value⟩),
      mod := p.mod } s v hs hm hv]
  simp only [List.map_map]
  congr 2
  apply List.map_congr_left
  intro c _
  simp only [Function.comp]
  rw [emod_mul_inverse _ _ _ _ (mpz_invert_some hv).2.2]

theorem emod_eq_self_iff (c m : Int) (hm : m ≠ 0) : c % m = c ↔ (0 ≤ c ∧ c < |m|) := by
  constructor
  · intro h
    rw [← h]
    exact ⟨Int.emod_nonneg _ hm, Int.emod_lt _ hm⟩
  · rintro ⟨h0, h1⟩
    rw [← Int.emod_abs]
    exact Int.emod_eq_of_lt h0 h1

theorem map_eq_self_iff {α : Type} (f : α → α) (l : List α) :
    l.map f = l ↔ ∀ c ∈ l, f c = c := by
  induction l with
  | nil => simp
  | cons x xs ih => simp [ih]

/-- C6, on the polynomial of the demo program: `[1, -2, 3, 15]` modulo 7 times
2 is `[2, 3, 6, 2]`, and dividing that by 2 gives `[1, 5, 3, 1]`, not the
polynomial started from (although 2 is invertible modulo 7). -/
theorem C6_counterexample :
    Int.gcd 2 7 = 1 ∧
      multiplyPolynomialByScalar (Polynomial.new [] 7) (Polynomial.new [1, -2, 3, 15] 7) ⟨2⟩
        = .ok (Polynomial.new [2, 3, 6, 2] 7) ∧
      dividePolynomialByScalar (Polynomial.new [] 7) (Polynomial.new [2, 3, 6, 2] 7) ⟨2⟩
        = .ok (Polynomial.new [1, 5, 3, 1] 7) ∧
      Polynomial.new [1, 5, 3, 1] 7 ≠ Polynomial.new [1, -2, 3, 15] 7 := by
  decide

/-- C6 (amended): for every polynomial `p` with non-zero modulus `m` and every
non-zero scalar `s` with `gcd(s, m) = 1`, whatever the result arguments held
before, `multiplyPolynomialByScalar(p, s)` returns and
`dividePolynomialByScalar` of its result by `s` returns the polynomial with
modulus `m` whose `i`-th coefficient is `p_i mod m`; this is `p` itself
exactly when every coefficient of `p` already lies in `[0, |m|)`. -/
theorem C6_scalar_roundtrip (r1 r2 p : Polynomial) (s : BigInt) (hm : p.mod.value ≠ 0)
    (hs : s.value ≠ 0) (hg : Int.gcd s.value p.mod.value = 1) :
    ∃ q r, multiplyPolynomialByScalar r1 p s = .ok q ∧
      dividePolynomialByScalar r2 q s = .ok r ∧
      r.mod = p.mod ∧
      r.coefficients = p.coefficients.map (fun c => ⟨c.value % p.mod.value⟩) ∧
      (r = p ↔ ∀ c ∈ p.coefficients, 0 ≤ c.value ∧ c.value < |p.mod.value|) := by
  obtain ⟨q, hq, hr⟩ := scalar_roundtrip r1 r2 p s hm hs hg
  refine ⟨q, _, hq, hr, rfl, rfl, ?_⟩
  cases p with
  | mk coeffs m =>
    simp only [Polynomial.mk.injEq, and_true]
    rw [map_eq_self_iff]
    constructor
    · intro h c hc
      have := congrArg BigInt.value (h c hc)
      exact (emod_eq_self_iff c.value m.value hm).mp this
    · intro h c hc
      cases c with
      | mk cv =>
        have := (emod_eq_self_iff cv m.value hm).mpr (h ⟨cv⟩ hc)
        simp only [this]

/-- The amended C6 on the polynomial `[1, 2, 3]` modulo 7 and the scalar 3 of the
demo program. -/
theorem C6_scalar_roundtrip_witness :
    (Polynomial.new [1, 2, 3] 7).mod.value ≠ 0 ∧ (3 : Int) ≠ 0 ∧
    Int.gcd 3 (Polynomial.new [1, 2, 3] 7).mod.value = 1 ∧
    ∃ q r, multiplyPolynomialByScalar (Polynomial.new [] 7) (Polynomial.new [1, 2, 3] 7) ⟨3⟩
        = .ok q ∧
      dividePolynomialByScalar (Polynomial.new [] 7) q ⟨3⟩ = .ok r ∧
      r.mod = (Polynomial.new [1, 2, 3] 7).mod ∧
      r.coefficients = (Polynomial.new [1, 2, 3] 7).coefficients.map
        (fun c => ⟨c.value % (Polynomial.new [1, 2, 3] 7).mod.value⟩) ∧
      (r = Polynomial.new [1, 2, 3] 7 ↔ ∀ c ∈ (Polynomial.new [1, 2, 3] 7).coefficients,
        0 ≤ c.value ∧ c.value < |(Polynomial.new [1, 2, 3] 7).mod.value|) :=
  ⟨by decide, by decide, by decide,
    C6_scalar_roundtrip _ _ (Polynomial.new [1, 2, 3] 7) ⟨3⟩ (by decide) (by decide) (by decide)⟩

/-! ## multiplyPolynomials -/

theorem visitedSum_row_end (a b : Polynomial) (i k : Nat) :
    visitedSum a b i b.coefficients.length k = visitedSum a b (i + 1) 0 k := by
  simp [visitedSum, Finset.sum_range_succ]

theorem visitedSum_succ (a b : Polynomial) (i j k : Nat) :
    visitedSum a b i (j + 1) k = visitedSum a b i j k +
      (if i + j = k then (a.coefficients.getD i default).value *
        (b.coefficients.getD j default).value else 0) := by
  simp [visitedSum, Finset.sum_range_succ, add_assoc]

/-- One step of the inner loop: it returns (the modulus is non-zero) and the
coefficients still are the reduced sums over the visited index pairs. -/
theorem multiplyPolynomials_body_inv (a b : Polynomial) (n i j : Nat) (r : Polynomial)
    (hm : a.mod.value ≠ 0) (hij : i + j < n)
    (hmodr : r.mod = a.mod) (hlen : r.coefficients.length = n)
    (hval : ∀ k, k < n → r.coefficients[k]? = some ⟨visitedSum a b i j k % a.mod.value⟩) :
    ∃ r', multiplyPolynomials.body a b i r j = .ok r' ∧ r'.mod = a.mod ∧
      r'.coefficients.length = n ∧
      ∀ k, k < n → r'.coefficients[k]? = some ⟨visitedSum a b i (j + 1) k % a.mod.value⟩ := by
  unfold multiplyPolynomials.body
  dsimp only
  rw [BigInt.modAssign_ok _ _ hm]
  refine ⟨_, rfl, hmodr, by simpa using hlen, ?_⟩
  intro k hk
  dsimp only
  rw [List.getElem?_set, visitedSum_succ]
  by_cases hik : i + j = k
  · subst hik
    simp only [if_true, hlen, hij]
    simp only [List.getD_eq_getElem?_getD, hval _ hij, Option.getD_some, BigInt.addAssign,
      BigInt.mul, mpz_add, mpz_mul, Int.emod_add_emod]
  · simp only [hik, if_false, add_zero]
    exact hval k hk

/-- One row of the double loop. -/
theorem multiplyPolynomials_row_inv (a b : Polynomial) (n i : Nat) (r : Polynomial)
    (hm : a.mod.value ≠ 0) (hi : i + b.coefficients.length ≤ n)
    (hmodr : r.mod = a.mod) (hlen : r.coefficients.length = n)
    (hval : ∀ k, k < n → r.coefficients[k]? = some ⟨visitedSum a b i 0 k % a.mod.value⟩) :
    ∃ r', multiplyPolynomials.row a b r i = .ok r' ∧ r'.mod = a.mod ∧
      r'.coefficients.length = n ∧
      ∀ k, k < n → r'.coefficients[k]? = some ⟨visitedSum a b (i + 1) 0 k % a.mod.value⟩ := by
  unfold multiplyPolynomials.row
  obtain ⟨r', hr', h1, h2, h3⟩ := foldlM_range_inv (multiplyPolynomials.body a b i)
    (fun j s => s.mod = a.mod ∧ s.coefficients.length = n ∧
      ∀ k, k < n → s.coefficients[k]? = some ⟨visitedSum a b i j k % a.mod.value⟩)
    b.coefficients.length r ⟨hmodr, hlen, hval⟩
    (fun j hj s ⟨hs1, hs2, hs3⟩ =>
      multiplyPolynomials_body_inv a b n i j s hm (by omega) hs1 hs2 hs3)
  refine ⟨r', hr', h1, h2, ?_⟩
  intro k hk
  rw [← visitedSum_row_end]
  exact h3 k hk

/-- For non-empty operands with equal non-zero moduli, a result that fits a
vector, and a `result` argument without coefficients, `multiplyPolynomials`
returns the reduced convolution. -/
theorem multiplyPolynomials_ok (result a b : Polynomial) (hres : result.coefficients = [])
    (hmod : a.mod = b.mod) (hm : a.mod.value ≠ 0)
    (ha : a.coefficients ≠ []) (hb : b.coefficients ≠ [])
    (hsize : a.coefficients.length + b.coefficients.length - 1 ≤ vector_max_size) :
    ∃ r, multiplyPolynomials result a b = .ok r ∧ r.mod = a.mod ∧
      r.coefficients.length = a.coefficients.length + b.coefficients.length - 1 ∧
      ∀ k, k < a.coefficients.length + b.coefficients.length - 1 →
        r.coefficients[k]? = some
          ⟨visitedSum a b a.coefficients.length 0 k % a.mod.value⟩ := by
  have hla : 0 < a.coefficients.length := List.length_pos.mpr ha
  have hlb : 0 < b.coefficients.length := List.length_pos.mpr hb
  have hmax : vector_max_size < 2 ^ 64 := by decide
  have hdeg : (a.coefficients.length + b.coefficients.length + 2 ^ 64 - 1) % 2 ^ 64
      = a.coefficients.length + b.coefficients.length - 1 := by
    have : a.coefficients.length + b.coefficients.length + 2 ^ 64 - 1
        = (a.coefficients.length + b.coefficients.length - 1) + 2 ^ 64 := by omega
    rw [this, Nat.add_mod_right]
    exact Nat.mod_eq_of_lt (by omega)
  unfold multiplyPolynomials
  rw [← hmod, BigInt.ne_self]
  simp only [Bool.false_eq_true, if_false]
  rw [hdeg, if_neg (by omega)]
  exact foldlM_range_inv (multiplyPolynomials.row a b)
    (fun i s => s.mod = a.mod ∧
      s.coefficients.length = a.coefficients.length + b.coefficients.length - 1 ∧
      ∀ k, k < a.coefficients.length + b.coefficients.length - 1 →
        s.coefficients[k]? = some ⟨visitedSum a b i 0 k % a.mod.value⟩)
    a.coefficients.length _
    ⟨rfl, vector_resize_length _ _ _, by
      intro k hk
      simp [hres, vector_resize, visitedSum, hk, BigInt.ofNat]⟩
    (fun i hi s ⟨hs1, hs2, hs3⟩ =>
      multiplyPolynomials_row_inv a b _ i s hm (by omega) hs1 hs2 hs3)

/-- One step of the inner loop keeps modulus and length, whatever `result` holds. -/
theorem multiplyPolynomials_body_length (a b : Polynomial) (i j : Nat) (r : Polynomial)
    (hm : a.mod.value ≠ 0) :
    ∃ r', multiplyPolynomials.body a b i r j = .ok r' ∧ r'.mod = r.mod ∧
      r'.coefficients.length = r.coefficients.length := by
  unfold multiplyPolynomials.body
  dsimp only
  rw [BigInt.modAssign_ok _ _ hm]
  exact ⟨_, rfl, rfl, by simp⟩

/-- For non-empty operands with equal non-zero moduli and a result that fits a
vector, `multiplyPolynomials` returns with `len(a) + len(b) - 1` coefficients,
whatever `result` held before. -/
theorem multiplyPolynomials_length (result a b : Polynomial)
    (hmod : a.mod = b.mod) (hm : a.mod.value ≠ 0)
    (ha : a.coefficients ≠ []) (hb : b.coefficients ≠ [])
    (hsize : a.coefficients.length + b.coefficients.length - 1 ≤ vector_max_size) :
    ∃ r, multiplyPolynomials result a b = .ok r ∧ r.mod = a.mod ∧
      r.coefficients.length = a.coefficients.length + b.coefficients.length - 1 := by
  have hla : 0 < a.coefficients.length := List.length_pos.mpr ha
  have hlb : 0 < b.coefficients.length := List.length_pos.mpr hb
  have hmax : vector_max_size < 2 ^ 64 := by decide
  have hdeg : (a.coefficients.length + b.coefficients.length + 2 ^ 64 - 1) % 2 ^ 64
      = a.coefficients.length + b.coefficients.length - 1 := by
    have : a.coefficients.length + b.coefficients.length + 2 ^ 64 - 1
        = (a.coefficients.length + b.coefficients.length - 1) + 2 ^ 64 := by omega
    rw [this, Nat.add_mod_right]
    exact Nat.mod_eq_of_lt (by omega)
  unfold multiplyPolynomials
  rw [← hmod, BigInt.ne_self]
  simp only [Bool.false_eq_true, if_false]
  rw [hdeg, if_neg (by omega)]
  exact foldlM_range_inv (multiplyPolynomials.row a b)
    (fun _ s => s.mod = a.mod ∧
      s.coefficients.length = a.coefficients.length + b.coefficients.length - 1)
    a.coefficients.length _ ⟨rfl, vector_resize_length _ _ _⟩
    (fun i _ s ⟨hs1, hs2⟩ =>
      foldlM_range_inv (multiplyPolynomials.body a b i)
        (fun _ t => t.mod = a.mod ∧
          t.coefficients.length = a.coefficients.length + b.coefficients.length - 1)
        b.coefficients.length s ⟨hs1, hs2⟩
        (fun j _ t ⟨ht1, ht2⟩ => by
          obtain ⟨t', h1, h2, h3⟩ := multiplyPolynomials_body_length a b i j t hm
          exact ⟨t', h1, h2.trans ht1, h3.trans ht2⟩))

/-- C7: for non-empty polynomials `a`, `b` sharing a modulus `m > 0` (with
`len(a) + len(b) - 1` within what a vector can hold) and a `result` argument
constructed empty, `multiplyPolynomials` returns with `result` holding modulus
`m` and `len(a) + len(b) - 1` coefficients, the one of power `k` being
`(Σ_{i + j = k} a_i * b_j) mod m` in `[0, m)`: reducing after every step of the
double loop gives the same value as reducing the whole sum once. -/
theorem C7_multiplyPolynomials (result a b : Polynomial) (hres : result.coefficients = [])
    (hmod : a.mod = b.mod) (hm : 0 < a.mod.value)
    (ha : a.coefficients ≠ []) (hb : b.coefficients ≠ [])
    (hsize : a.coefficients.length + b.coefficients.length - 1 ≤ vector_max_size) :
    ∃ r, multiplyPolynomials result a b = .ok r ∧ r.mod = a.mod ∧
      r.coefficients.length = a.coefficients.length + b.coefficients.length - 1 ∧
      ∀ k, k < a.coefficients.length + b.coefficients.length - 1 →
        ∃ c, r.coefficients[k]? = some c ∧
          c.value = (∑ i ∈ Finset.range a.coefficients.length,
            ∑ j ∈ Finset.range b.coefficients.length,
              if i + j = k then (a.coefficients.getD i default).value *
                (b.coefficients.getD j default).value else 0) % a.mod.value ∧
          0 ≤ c.value ∧ c.value < a.mod.value := by
  obtain ⟨r, hr, h1, h2, h3⟩ :=
    multiplyPolynomials_ok result a b hres hmod (ne_of_gt hm) ha hb hsize
  refine ⟨r, hr, h1, h2, ?_⟩
  intro k hk
  refine ⟨_, h3 k hk, ?_, Int.emod_nonneg _ (ne_of_gt hm), Int.emod_lt_of_pos _ hm⟩
  simp [visitedSum]

/-- The product computed by the demo program: C7 applied to it, and the
coefficients by evaluation. -/
theorem C7_multiplyPolynomials_witness :
    (Polynomial.new [] 7).coefficients = [] ∧
    (Polynomial.new [1, -2, 3, 15] 7).mod = (Polynomial.new [-3, 4, 2] 7).mod ∧
    0 < (Polynomial.new [1, -2, 3, 15] 7).mod.value ∧
    (Polynomial.new [1, -2, 3, 15] 7).coefficients ≠ [] ∧
    (Polynomial.new [-3, 4, 2] 7).coefficients ≠ [] ∧
    (Polynomial.new [1, -2, 3, 15] 7).coefficients.length +
      (Polynomial.new [-3, 4, 2] 7).coefficients.length - 1 ≤ vector_max_size ∧
    (∃ r, multiplyPolynomials (Polynomial.new [] 7) (Polynomial.new [1, -2, 3, 15] 7)
        (Polynomial.new [-3, 4, 2] 7) = .ok r ∧
      r.mod = (Polynomial.new [1, -2, 3, 15] 7).mod ∧
      r.coefficients.length = (Polynomial.new [1, -2, 3, 15] 7).coefficients.length +
        (Polynomial.new [-3, 4, 2] 7).coefficients.length - 1 ∧
      ∀ k, k < (Polynomial.new [1, -2, 3, 15] 7).coefficients.length +
          (Polynomial.new [-3, 4, 2] 7).coefficients.length - 1 →
        ∃ c, r.coefficients[k]? = some c ∧
          c.value = (∑ i ∈ Finset.range (Polynomial.new [1, -2, 3, 15] 7).coefficients.length,
            ∑ j ∈ Finset.range (Polynomial.new [-3, 4, 2] 7).coefficients.length,
              if i + j = k then
                ((Polynomial.new [1, -2, 3, 15] 7).coefficients.getD i default).value *
                ((Polynomial.new [-3, 4, 2] 7).coefficients.getD j default).value else 0)
            % (Polynomial.new [1, -2, 3, 15] 7).mod.value ∧
          0 ≤ c.value ∧ c.value < (Polynomial.new [1, -2, 3, 15] 7).mod.value) ∧
    multiplyPolynomials (Polynomial.new [] 7) (Polynomial.new [1, -2, 3, 15] 7)
      (Polynomial.new [-3, 4, 2] 7) = .ok (Polynomial.new [4, 3, 6, 5, 3, 2] 7) :=
  ⟨by decide, by decide, by decide, by decide, by decide, by decide,
    C7_multiplyPolynomials _ _ _ (by decide) (by decide) (by decide) (by decide) (by decide)
      (by decide), by decide⟩

/-- C8, at an empty operand: the empty polynomial times `[-3, 4, 2]` leaves 2
coefficients and `[1, -2, 3, 15]` times the empty polynomial leaves 3 (the
claim: 0), and they are whatever `result` held there before (`[5, 5]` for a
`result` that held `[5, 5, 5]`); with both operands empty `0 + 0 - 1` wraps to
`2^64 - 1` and the `resize` throws `std::length_error`. -/
theorem C8_empty_operand :
    multiplyPolynomials (Polynomial.new [] 7) (Polynomial.new [] 7) (Polynomial.new [-3, 4, 2] 7)
        = .ok (Polynomial.new [0, 0] 7) ∧
      multiplyPolynomials (Polynomial.new [] 7) (Polynomial.new [1, -2, 3, 15] 7)
        (Polynomial.new [] 7) = .ok (Polynomial.new [0, 0, 0] 7) ∧
      multiplyPolynomials (Polynomial.new [5, 5, 5] 7) (Polynomial.new [] 7)
        (Polynomial.new [-3, 4, 2] 7) = .ok (Polynomial.new [5, 5] 7) ∧
      multiplyPolynomials (Polynomial.new [] 7) (Polynomial.new [] 7) (Polynomial.new [] 7)
        = .error (.lengthError, Polynomial.new [] 7) := by
  decide

/-! ## interpolate -/

/-- Modulo a prime, `modInverse` inverts every reduced non-zero residue, and the
value it returns is the field inverse. -/
theorem modInverse_prime (p : Nat) (hp : p.Prime) (d : Int) (hd : d % (p : Int) ≠ 0) :
    ∃ v, BigInt.modInverse ⟨d % (p : Int)⟩ ⟨(p : Int)⟩ = .ok v ∧
      (v.value : ZMod p) = ((d : ZMod p))⁻¹ := by
  haveI : Fact p.Prime := ⟨hp⟩
  have hm : (p : Int) ≠ 0 := by exact_mod_cast hp.ne_zero
  have hnd : ¬ p ∣ (d % (p : Int)).natAbs := by
    rw [← Int.natCast_dvd]
    intro h
    exact hd (by simpa using Int.emod_eq_zero_of_dvd h)
  have hg : Int.gcd (d % (p : Int)) (p : Int) = 1 := by
    have := (Nat.Prime.coprime_iff_not_dvd hp).2 hnd
    rw [Int.gcd_comm]
    simpa [Int.gcd, Nat.Coprime] using this
  obtain ⟨v, hv⟩ := mpz_invert_of_gcd hm hg
  refine ⟨⟨v⟩, (BigInt.modInverse_ok_iff _ _ ⟨v⟩).mpr hv, ?_⟩
  have h2 := (mpz_invert_some hv).2.2
  have h3 : (((d % (p : Int) * v - 1 : Int)) : ZMod p) = 0 :=
    (ZMod.intCast_zmod_eq_zero_iff_dvd _ p).mpr (Int.dvd_of_emod_eq_zero h2)
  push_cast at h3
  exact eq_inv_of_mul_eq_one_right (sub_eq_zero.mp h3)

/-- One step of the inner loop of `interpolate` modulo a prime: it returns, and
modulo `p` the term has been multiplied by the basis factor (or left alone when
`j = i`). -/
theorem interpolate_body_inv (p : Nat) (hp : p.Prime) (f : List Data) (xi : BigInt)
    (i j : Nat) (term : BigInt)
    (hdist : j ≠ i →
      ((f.getD i default).x.value - (f.getD j default).x.value) % (p : Int) ≠ 0) :
    ∃ term', interpolate.body f xi ⟨(p : Int)⟩ i term j = .ok term' ∧
      (term'.value : ZMod p) =
        (term.value : ZMod p) * (if j ≠ i then basisFactor p f xi i j else 1) := by
  have hm : (p : Int) ≠ 0 := by exact_mod_cast hp.ne_zero
  unfold interpolate.body
  by_cases hji : j ≠ i
  · obtain ⟨v, hv, hvinv⟩ := modInverse_prime p hp _ (hdist hji)
    simp only [hji, ne_eq, not_false_eq_true, if_true]
    rw [BigInt.modAssign_ok _ _ hm]
    dsimp only [BigInt.sub, mpz_sub]
    rw [hv]
    dsimp only
    rw [BigInt.modAssign_ok _ _ hm]
    refine ⟨_, rfl, ?_⟩
    dsimp only [BigInt.mulAssign, BigInt.mul, mpz_mul, mpz_sub]
    rw [ZMod.intCast_mod]
    push_cast
    rw [hvinv]
    simp only [basisFactor]
    push_cast
    ring
  · simp only [hji, if_false, mul_one]
    exact ⟨term, rfl, rfl⟩

/-- One pass of the outer loop of `interpolate` modulo a prime: it returns, the
new result is reduced, and modulo `p` the `i`-th Lagrange term has been added. -/
theorem interpolate_row_inv (p : Nat) (hp : p.Prime) (f : List Data) (xi : BigInt)
    (i : Nat) (result : BigInt)
    (hdist : ∀ j, j < f.length → j ≠ i →
      ((f.getD i default).x.value - (f.getD j default).x.value) % (p : Int) ≠ 0) :
    ∃ result', interpolate.row f xi ⟨(p : Int)⟩ result i = .ok result' ∧
      0 ≤ result'.value ∧ result'.value < (p : Int) ∧
      (result'.value : ZMod p) = (result.value : ZMod p) +
        ((f.getD i default).y.value : ZMod p) *
          ∏ j ∈ Finset.range f.length, (if j ≠ i then basisFactor p f xi i j else 1) := by
  have hm : (p : Int) ≠ 0 := by exact_mod_cast hp.ne_zero
  have hpos : (0 : Int) < (p : Int) := by exact_mod_cast hp.pos
  obtain ⟨term, hterm, hval⟩ := foldlM_range_inv (interpolate.body f xi ⟨(p : Int)⟩ i)
    (fun j t => (t.value : ZMod p) = ((f.getD i default).y.value : ZMod p) *
      ∏ j' ∈ Finset.range j, (if j' ≠ i then basisFactor p f xi i j' else 1))
    f.length (f.getD i default).y (by simp)
    (by
      intro j hj t ht
      obtain ⟨t', h1, h2⟩ := interpolate_body_inv p hp f xi i j t (hdist j hj)
      refine ⟨t', h1, ?_⟩
      beta_reduce
      rw [h2, ht, Finset.prod_range_succ, mul_assoc])
  unfold interpolate.row
  rw [hterm]
  dsimp only
  rw [BigInt.modAssign_ok _ _ hm]
  refine ⟨_, rfl, Int.emod_nonneg _ hm, Int.emod_lt_of_pos _ hpos, ?_⟩
  dsimp only [BigInt.addAssign, mpz_add]
  rw [ZMod.intCast_mod]
  push_cast
  rw [hval]

/-- Modulo a prime and with sample abscissae pairwise distinct modulo it,
`interpolate` returns the reduced value of the Lagrange sum. -/
theorem interpolate_ok (p : Nat) (hp : p.Prime) (f : List Data) (xi : BigInt)
    (hdist : ∀ i j, i < f.length → j < f.length → i ≠ j →
      ((f.getD i default).x.value - (f.getD j default).x.value) % (p : Int) ≠ 0) :
    ∃ r, interpolate f xi (p : Int) = .ok r ∧ 0 ≤ r.value ∧ r.value < (p : Int) ∧
      (r.value : ZMod p) = ∑ i ∈ Finset.range f.length,
        ((f.getD i default).y.value : ZMod p) *
          ∏ j ∈ (Finset.range f.length).erase i, basisFactor p f xi i j := by
  have hpos : (0 : Int) < (p : Int) := by exact_mod_cast hp.pos
  obtain ⟨r, hr, h0, h1, hval⟩ := foldlM_range_inv (interpolate.row f xi ⟨(p : Int)⟩)
    (fun i r => 0 ≤ r.value ∧ r.value < (p : Int) ∧
      (r.value : ZMod p) = ∑ i' ∈ Finset.range i,
        ((f.getD i' default).y.value : ZMod p) *
          ∏ j ∈ Finset.range f.length, (if j ≠ i' then basisFactor p f xi i' j else 1))
    f.length ⟨0⟩ ⟨le_refl _, hpos, by simp⟩
    (by
      intro i hi r ⟨_, _, hr3⟩
      obtain ⟨r', h1, h2, h3, h4⟩ := interpolate_row_inv p hp f xi i r
        (fun j hj hji => hdist i j hi hj (Ne.symm hji))
      refine ⟨r', h1, h2, h3, ?_⟩
      beta_reduce
      rw [h4, hr3, Finset.sum_range_succ])
  refine ⟨r, hr, h0, h1, ?_⟩
  rw [hval]
  apply Finset.sum_congr rfl
  intro i _
  congr 1
  rw [Finset.prod_ite, Finset.prod_const_one, mul_one, Finset.filter_ne']

end SnarkCpp

namespace Interpolation

/-- The Lagrange sum of `SnarkCpp.interpolate_ok` is the value at `xi` of the
interpolation polynomial through the samples. -/
theorem eval_lagrange (p : Nat) (hp : p.Prime) (f : List SnarkCpp.Data) (xi : SnarkCpp.BigInt) :
    Polynomial.eval (xi.value : ZMod p)
        (@Lagrange.interpolate (ZMod p) (@ZMod.instField p ⟨hp⟩) ℕ _ (Finset.range f.length)
          (fun i => ((f.getD i default).x.value : ZMod p))
          (fun i => ((f.getD i default).y.value : ZMod p))) =
      ∑ i ∈ Finset.range f.length, ((f.getD i default).y.value : ZMod p) *
        ∏ j ∈ (Finset.range f.length).erase i, SnarkCpp.basisFactor p f xi i j := by
  haveI : Fact p.Prime := ⟨hp⟩
  rw [Lagrange.interpolate_apply, Polynomial.eval_finset_sum]
  apply Finset.sum_congr rfl
  intro i _
  rw [Polynomial.eval_mul, Polynomial.eval_C, Lagrange.basis, Polynomial.eval_prod]
  congr 1
  apply Finset.prod_congr rfl
  intro j _
  simp only [Lagrange.basisDivisor, Polynomial.eval_mul, Polynomial.eval_C, Polynomial.eval_sub,
    Polynomial.eval_X, SnarkCpp.basisFactor]
  ring

/-- C1: for every prime `p`, every list `f` of samples whose x-coordinates are
pairwise distinct modulo `p` (reduced by `Data` or not) and every target `xi`,
`interpolate` returns a value `r` with `0 ≤ r < p` that is, modulo `p`, the
Lagrange sum `Σ_i y_i * Π_{j ≠ i} (xi - x_j) * (x_i - x_j)⁻¹`, and `r` is the
value at `xi` of the one polynomial `P` over `ZMod p` of degree below `n` with
`P(x_k) = y_k` for every sample. -/
theorem C1_interpolate (p : Nat) (hp : p.Prime) (f : List SnarkCpp.Data) (xi : SnarkCpp.BigInt)
    (hdist : ∀ i, i < f.length → ∀ j, j < f.length → i ≠ j →
      ((f.getD i default).x.value - (f.getD j default).x.value) % (p : Int) ≠ 0) :
    ∃ r, SnarkCpp.interpolate f xi (p : Int) = .ok r ∧ 0 ≤ r.value ∧ r.value < (p : Int) ∧
      (r.value : ZMod p) = ∑ i ∈ Finset.range f.length,
        ((f.getD i default).y.value : ZMod p) *
          ∏ j ∈ (Finset.range f.length).erase i,
            (((xi.value : ZMod p) - ((f.getD j default).x.value : ZMod p)) *
              (((f.getD i default).x.value : ZMod p) -
                ((f.getD j default).x.value : ZMod p))⁻¹) ∧
      ∃ P : Polynomial (ZMod p), P.degree < (f.length : WithBot ℕ) ∧
        (∀ k, k < f.length → P.eval ((f.getD k default).x.value : ZMod p) =
          ((f.getD k default).y.value : ZMod p)) ∧
        (∀ Q : Polynomial (ZMod p), Q.degree < (f.length : WithBot ℕ) →
          (∀ k, k < f.length → Q.eval ((f.getD k default).x.value : ZMod p) =
            ((f.getD k default).y.value : ZMod p)) → Q = P) ∧
        P.eval (xi.value : ZMod p) = (r.value : ZMod p) := by
  haveI : Fact p.Prime := ⟨hp⟩
  obtain ⟨r, hr, h0, h1, hval⟩ := SnarkCpp.interpolate_ok p hp f xi
    (fun i j hi hj hij => hdist i hi j hj hij)
  refine ⟨r, hr, h0, h1, hval, ?_⟩
  have hvs : Set.InjOn (fun i => ((f.getD i default).x.value : ZMod p))
      (Finset.range f.length : Set ℕ) := by
    intro i hi j hj hij
    by_contra hne
    have hi' : i < f.length := Finset.mem_range.mp hi
    have hj' : j < f.length := Finset.mem_range.mp hj
    apply hdist i hi' j hj' hne
    apply Int.emod_eq_zero_of_dvd
    rw [← ZMod.intCast_zmod_eq_zero_iff_dvd]
    push_cast
    exact sub_eq_zero.mpr hij
  refine ⟨Lagrange.interpolate (Finset.range f.length)
    (fun i => ((f.getD i default).x.value : ZMod p))
    (fun i => ((f.getD i default).y.value : ZMod p)), ?_, ?_, ?_, ?_⟩
  · have := Lagrange.degree_interpolate_lt
      (r := fun i => ((f.getD i default).y.value : ZMod p)) hvs
    simpa using this
  · intro k hk
    exact Lagrange.eval_interpolate_at_node _ hvs (Finset.mem_range.mpr hk)
  · intro Q hQ hQe
    apply Lagrange.eq_interpolate_of_eval_eq _ hvs
    · simpa using hQ
    · intro k hk
      exact hQe k (Finset.mem_range.mp hk)
  · rw [hval]
    exact eval_lagrange p hp f xi

/-- The run of `main` in interpolation.cpp: the five samples of `x²` modulo
101 are what `Data` builds, they satisfy the hypotheses of C1, and the value
interpolated at 6 is 36. -/
theorem C1_interpolate_witness :
    [SnarkCpp.Data.new 1 1 101, SnarkCpp.Data.new 2 4 101, SnarkCpp.Data.new 3 9 101,
        SnarkCpp.Data.new 4 16 101, SnarkCpp.Data.new 5 25 101]
      = SnarkCpp.mainPoints.map Except.ok ∧
    Nat.Prime 101 ∧
    (∀ i, i < SnarkCpp.mainPoints.length → ∀ j, j < SnarkCpp.mainPoints.length → i ≠ j →
      ((SnarkCpp.mainPoints.getD i default).x.value -
        (SnarkCpp.mainPoints.getD j default).x.value) % ((101 : Nat) : Int) ≠ 0) ∧
    SnarkCpp.interpolate SnarkCpp.mainPoints ⟨6⟩ 101 = .ok ⟨36⟩ ∧
    ∃ r, SnarkCpp.interpolate SnarkCpp.mainPoints ⟨6⟩ ((101 : Nat) : Int) = .ok r ∧
      0 ≤ r.value ∧ r.value < ((101 : Nat) : Int) ∧
      (r.value : ZMod 101) = ∑ i ∈ Finset.range SnarkCpp.mainPoints.length,
        ((SnarkCpp.mainPoints.getD i default).y.value : ZMod 101) *
          ∏ j ∈ (Finset.range SnarkCpp.mainPoints.length).erase i,
            ((((6 : Int) : ZMod 101) - ((SnarkCpp.mainPoints.getD j default).x.value : ZMod 101)) *
              (((SnarkCpp.mainPoints.getD i default).x.value : ZMod 101) -
                ((SnarkCpp.mainPoints.getD j default).x.value : ZMod 101))⁻¹) ∧
      ∃ P : Polynomial (ZMod 101), P.degree < (SnarkCpp.mainPoints.length : WithBot ℕ) ∧
        (∀ k, k < SnarkCpp.mainPoints.length →
          P.eval ((SnarkCpp.mainPoints.getD k default).x.value : ZMod 101) =
            ((SnarkCpp.mainPoints.getD k default).y.value : ZMod 101)) ∧
        (∀ Q : Polynomial (ZMod 101), Q.degree < (SnarkCpp.mainPoints.length : WithBot ℕ) →
          (∀ k, k < SnarkCpp.mainPoints.length →
            Q.eval ((SnarkCpp.mainPoints.getD k default).x.value : ZMod 101) =
              ((SnarkCpp.mainPoints.getD k default).y.value : ZMod 101)) → Q = P) ∧
        P.eval (((6 : Int) : ZMod 101)) = (r.value : ZMod 101) :=
  ⟨by decide, by norm_num, by decide, by decide,
    C1_interpolate 101 (by norm_num) SnarkCpp.mainPoints ⟨6⟩ (by decide)⟩

end Interpolation

/-! # Theorems (continued) -/

namespace SnarkCpp

/-! ## BigInt: zero divisors, ring identities, shifts -/

/-- C15 (what the code does with a zero divisor): for every dividend `a`,
`a / 0`, `a % 0`, `a /= 0` and `a %= 0` hand the zero to GMP unchecked, and GMP's
division by zero ends the process: the outcome is not an exception, so no error
reaches the caller.  The sibling `dividePolynomialByScalar` does check for the
zero divisor, and throws `std::invalid_argument` with `result` left as it was. -/
theorem C15_zero_divisor_fault (a : BigInt) :
    (a.div ⟨0⟩ = .error .divideByZero ∧ a.mod ⟨0⟩ = .error .divideByZero ∧
      a.divAssign ⟨0⟩ = .error .divideByZero ∧ a.modAssign ⟨0⟩ = .error .divideByZero) ∧
    Failure.isException .divideByZero = false ∧
    (∀ result poly : Polynomial,
      dividePolynomialByScalar result poly ⟨0⟩
        = .error (.invalidArgument "Division by zero is not allowed.", result)) ∧
    Failure.isException (.invalidArgument "Division by zero is not allowed.") = true := by
  refine ⟨?_, rfl, ?_, rfl⟩
  · simp [BigInt.div, BigInt.mod, BigInt.divAssign, BigInt.modAssign, mpz_fdiv_q, mpz_mod]
  · intro result poly
    have hz : BigInt.isZero ⟨0⟩ = true := (BigInt.isZero_iff _).mpr rfl
    simp [dividePolynomialByScalar, hz]

/-- C16: for all `a` and `b`, `a + b == b + a`, `a - (a - b) == b` and
`(a + b) - b == a`. -/
theorem C16_add_sub_identities (a b : BigInt) :
    BigInt.eq (a.add b) (b.add a) = true ∧ BigInt.eq (a.sub (a.sub b)) b = true ∧
      BigInt.eq ((a.add b).sub b) a = true := by
  cases a; cases b
  simp only [BigInt.eq_iff, BigInt.add, BigInt.sub, mpz_add, mpz_sub, BigInt.mk.injEq]
  refine ⟨by ring, by ring, by ring⟩

theorem int_of_size_t_range (n : Nat) :
    -(2 : Int) ^ 31 ≤ int_of_size_t n ∧ int_of_size_t n < 2 ^ 31 := by
  unfold int_of_size_t
  have h := Nat.mod_lt n (show 0 < 2 ^ 32 by norm_num)
  split <;> constructor <;> omega

theorem int_of_size_t_of_lt {n : Nat} (h : n < 2 ^ 31) : int_of_size_t n = n := by
  unfold int_of_size_t
  have h1 : n % 2 ^ 32 = n := Nat.mod_eq_of_lt (by omega)
  rw [h1, if_pos h]

/-- C20: `deg()` depends on the coefficient count only (not on the
coefficients, so trailing zeros count): it is the count minus 1 converted to a
32-bit signed `int`, that is, congruent to `count - 1` modulo `2^32` and in
`[-2^31, 2^31)`; it is `count - 1` for every count from 1 to `2^31`, and for
the empty polynomial `size() - 1` wraps to `2^64 - 1` and `deg()` is `-1`. -/
theorem C20_deg (p : Polynomial) :
    -(2 : Int) ^ 31 ≤ p.deg ∧ p.deg < 2 ^ 31 ∧
      (2 : Int) ^ 32 ∣ p.deg - ((p.coefficients.length : Int) - 1) ∧
      (1 ≤ p.coefficients.length → p.coefficients.length ≤ 2 ^ 31 →
        p.deg = (p.coefficients.length : Int) - 1) ∧
      (p.coefficients = [] →
        (p.coefficients.length + 2 ^ 64 - 1) % 2 ^ 64 = 2 ^ 64 - 1 ∧ p.deg = -1) := by
  refine ⟨(int_of_size_t_range _).1, (int_of_size_t_range _).2, ?_, ?_, ?_⟩
  · unfold Polynomial.deg int_of_size_t
    generalize p.coefficients.length = n
    split <;> omega
  · intro h1 h2
    unfold Polynomial.deg
    have : (p.coefficients.length + 2 ^ 64 - 1) % 2 ^ 64 = p.coefficients.length - 1 := by
      omega
    rw [this, int_of_size_t_of_lt (by omega)]
    omega
  · intro h
    simp only [Polynomial.deg, h, List.length_nil]
    decide

/-- C20 on `[1, 0, 0]` (degree 2 reported for the constant 1) and on the empty
polynomial. -/
theorem C20_deg_witness :
    (Polynomial.new [1, 0, 0] 7).deg = 2 ∧ (Polynomial.new [] 7).deg = -1 ∧
      (Polynomial.new [1, 0, 0] 7).deg = ((Polynomial.new [1, 0, 0] 7).coefficients.length : Int) - 1 :=
  ⟨by decide, by decide,
    (C20_deg (Polynomial.new [1, 0, 0] 7)).2.2.2.1 (by decide) (by decide)⟩

/-! ## Errors of the polynomial routines -/

/-- An error of a counted loop is an error of one of its iterations. -/
theorem foldlM_range_error {ε σ : Type} (body : σ → Nat → Except ε σ) (P : ε → Prop)
    (h : ∀ s i e, body s i = .error e → P e) (n : Nat) (s0 : σ) (e : ε)
    (he : (List.range n).foldlM body s0 = .error e) : P e := by
  induction n generalizing e with
  | zero => exact absurd he (by simp [pure, Except.pure])
  | succ n ih =>
    rw [foldlM_range_succ] at he
    cases hfold : (List.range n).foldlM body s0 with
    | error e' =>
      rw [hfold, except_error_bind] at he
      cases he
      exact ih e hfold
    | ok s =>
      rw [hfold, except_ok_bind] at he
      exact h s n e he

theorem BigInt.modAssign_error (a b : BigInt) (e : Failure) (h : a.modAssign b = .error e) :
    e = .divideByZero := by
  unfold BigInt.modAssign mpz_mod at h
  split at h
  · cases h
  · rename_i e' heq
    split at heq
    · cases heq; cases h; rfl
    · cases heq

/-- The loop bodies of the polynomial routines fail in GMP's division by zero
or, for `dividePolynomialByScalar`, in `modInverse`: never with
`std::invalid_argument` or `std::length_error`. -/
theorem body_errors (a b r : Polynomial) (s : BigInt) (i j : Nat) (e : Failure × Polynomial) :
    (addPolynomials.body a b r i = .error e → e.1 = .divideByZero) ∧
      (subtractPolynomials.body a b r i = .error e → e.1 = .divideByZero) ∧
      (multiplyPolynomials.body a b i r j = .error e → e.1 = .divideByZero) ∧
      (dividePolynomialByScalar.body a s r i = .error e →
        e.1 = .divideByZero ∨ e.1 = .runtimeError "Modular inverse does not exist.") := by
  refine ⟨?_, ?_, ?_, ?_⟩
  · unfold addPolynomials.body
    dsimp only
    split
    · intro h; cases h
    · rename_i e' heq
      intro h; cases h
      exact BigInt.modAssign_error _ _ _ heq
  · unfold subtractPolynomials.body
    dsimp only
    split
    · intro h; cases h
    · rename_i e' heq
      intro h; cases h
      exact BigInt.modAssign_error _ _ _ heq
  · unfold multiplyPolynomials.body
    dsimp only
    split
    · intro h; cases h
    · rename_i e' heq
      intro h; cases h
      exact BigInt.modAssign_error _ _ _ heq
  · unfold dividePolynomialByScalar.body
    split
    · rename_i e' heq
      intro h; cases h
      exact Or.inr ((BigInt.modInverse_error_iff _ _ _).mp heq).2
    · dsimp only
      split
      · intro h; cases h
      · rename_i e' heq
        intro h; cases h
        exact Or.inl (BigInt.modAssign_error _ _ _ heq)

/-- With different moduli the three binary routines throw `std::invalid_argument`
before touching `result`. -/
theorem moduli_guard (result a b : Polynomial) (h : a.mod ≠ b.mod) :
    addPolynomials result a b =
        .error (.invalidArgument "Moduli of the polynomials must be the same.", result) ∧
      subtractPolynomials result a b =
        .error (.invalidArgument "Moduli of the polynomials must be the same.", result) ∧
      multiplyPolynomials result a b =
        .error (.invalidArgument "Moduli of the polynomials must be the same.", result) := by
  have hne : a.mod.ne b.mod = true := (BigInt.ne_iff _ _).mpr h
  simp [addPolynomials, subtractPolynomials, multiplyPolynomials, hne]

/-- How `addPolynomials` can fail. -/
theorem addPolynomials_error (result a b : Polynomial) (e : Failure × Polynomial)
    (h : addPolynomials result a b = .error e) :
    (a.mod ≠ b.mod ∧
        e = (.invalidArgument "Moduli of the polynomials must be the same.", result)) ∨
      (a.mod = b.mod ∧ e.1 = .divideByZero) := by
  by_cases hmod : a.mod = b.mod
  · right
    refine ⟨hmod, ?_⟩
    unfold addPolynomials at h
    rw [← hmod, BigInt.ne_self] at h
    simp only [Bool.false_eq_true, if_false] at h
    exact foldlM_range_error _ (fun e => e.1 = .divideByZero)
      (fun s i e he => (body_errors a b s ⟨0⟩ i 0 e).1 he) _ _ e h
  · left
    rw [(moduli_guard result a b hmod).1] at h
    cases h
    exact ⟨hmod, rfl⟩

/-- How `subtractPolynomials` can fail. -/
theorem subtractPolynomials_error (result a b : Polynomial) (e : Failure × Polynomial)
    (h : subtractPolynomials result a b = .error e) :
    (a.mod ≠ b.mod ∧
        e = (.invalidArgument "Moduli of the polynomials must be the same.", result)) ∨
      (a.mod = b.mod ∧ e.1 = .divideByZero) := by
  by_cases hmod : a.mod = b.mod
  · right
    refine ⟨hmod, ?_⟩
    unfold subtractPolynomials at h
    rw [← hmod, BigInt.ne_self] at h
    simp only [Bool.false_eq_true, if_false] at h
    exact foldlM_range_error _ (fun e => e.1 = .divideByZero)
      (fun s i e he => (body_errors a b s ⟨0⟩ i 0 e).2.1 he) _ _ e h
  · left
    rw [(moduli_guard result a b hmod).2.1] at h
    cases h
    exact ⟨hmod, rfl⟩

/-- How `multiplyPolynomials` can fail. -/
theorem multiplyPolynomials_error (result a b : Polynomial) (e : Failure × Polynomial)
    (h : multiplyPolynomials result a b = .error e) :
    (a.mod ≠ b.mod ∧
        e = (.invalidArgument "Moduli of the polynomials must be the same.", result)) ∨
      (a.mod = b.mod ∧ (e = (.lengthError, result) ∨ e.1 = .divideByZero)) := by
  by_cases hmod : a.mod = b.mod
  · right
    refine ⟨hmod, ?_⟩
    unfold multiplyPolynomials at h
    rw [← hmod, BigInt.ne_self] at h
    simp only [Bool.false_eq_true, if_false] at h
    split at h
    · cases h
      exact Or.inl rfl
    · right
      refine foldlM_range_error _ (fun e => e.1 = .divideByZero) ?_ _ _ e h
      intro s i e he
      unfold multiplyPolynomials.row at he
      exact foldlM_range_error _ (fun e => e.1 = .divideByZero)
        (fun t j e he => (body_errors a b t ⟨0⟩ i j e).2.2.1 he) _ _ e he
  · left
    rw [(moduli_guard result a b hmod).2.2] at h
    cases h
    exact ⟨hmod, rfl⟩

/-- How `dividePolynomialByScalar` can fail. -/
theorem dividePolynomialByScalar_error (result poly : Polynomial) (scalar : BigInt)
    (e : Failure × Polynomial) (h : dividePolynomialByScalar result poly scalar = .error e) :
    (scalar.value = 0 ∧ e = (.invalidArgument "Division by zero is not allowed.", result)) ∨
      (scalar.value ≠ 0 ∧
        (e.1 = .divideByZero ∨ e.1 = .runtimeError "Modular inverse does not exist.")) := by
  unfold dividePolynomialByScalar at h
  by_cases hs : scalar.value = 0
  · left
    have hz : scalar.isZero = true := (BigInt.isZero_iff _).mpr hs
    rw [hz] at h
    simp only [if_true] at h
    cases h
    exact ⟨hs, rfl⟩
  · right
    have hz : scalar.isZero = false := by
      rw [← Bool.not_eq_true, BigInt.isZero_iff]
      exact hs
    rw [hz] at h
    simp only [Bool.false_eq_true, if_false] at h
    exact ⟨hs, foldlM_range_error _
      (fun e => e.1 = .divideByZero ∨ e.1 = .runtimeError "Modular inverse does not exist.")
      (fun s i e he => (body_errors poly poly s scalar i 0 e).2.2.2 he) _ _ e h⟩

/-- C11: when the moduli of `a` and `b` differ, each of `addPolynomials`,
`subtractPolynomials` and `multiplyPolynomials` throws `std::invalid_argument`
("Moduli of the polynomials must be the same.") and produces no coefficients
(`result` is as before); when the moduli are equal, none of them ends with an
`std::invalid_argument`. -/
theorem C11_moduli (result a b : Polynomial) :
    (a.mod ≠ b.mod →
      addPolynomials result a b =
          .error (.invalidArgument "Moduli of the polynomials must be the same.", result) ∧
        subtractPolynomials result a b =
          .error (.invalidArgument "Moduli of the polynomials must be the same.", result) ∧
        multiplyPolynomials result a b =
          .error (.invalidArgument "Moduli of the polynomials must be the same.", result)) ∧
    (a.mod = b.mod → ∀ what st,
      addPolynomials result a b ≠ .error (.invalidArgument what, st) ∧
        subtractPolynomials result a b ≠ .error (.invalidArgument what, st) ∧
        multiplyPolynomials result a b ≠ .error (.invalidArgument what, st)) := by
  refine ⟨moduli_guard result a b, ?_⟩
  intro hmod what st
  refine ⟨?_, ?_, ?_⟩
  · intro h
    rcases addPolynomials_error result a b _ h with ⟨hne, -⟩ | ⟨-, he⟩
    · exact hne hmod
    · cases he
  · intro h
    rcases subtractPolynomials_error result a b _ h with ⟨hne, -⟩ | ⟨-, he⟩
    · exact hne hmod
    · cases he
  · intro h
    rcases multiplyPolynomials_error result a b _ h with ⟨hne, -⟩ | ⟨-, he | he⟩
    · exact hne hmod
    · cases he
    · cases he

/-- C11 on polynomials modulo 7 and modulo 11 (all three calls throw) and on two
polynomials modulo 7 (none does). -/
theorem C11_moduli_witness :
    (Polynomial.new [1, 2] 7).mod ≠ (Polynomial.new [3] 11).mod ∧
    (addPolynomials (Polynomial.new [] 7) (Polynomial.new [1, 2] 7) (Polynomial.new [3] 11) =
        .error (.invalidArgument "Moduli of the polynomials must be the same.",
          Polynomial.new [] 7) ∧
      subtractPolynomials (Polynomial.new [] 7) (Polynomial.new [1, 2] 7) (Polynomial.new [3] 11) =
        .error (.invalidArgument "Moduli of the polynomials must be the same.",
          Polynomial.new [] 7) ∧
      multiplyPolynomials (Polynomial.new [] 7) (Polynomial.new [1, 2] 7) (Polynomial.new [3] 11) =
        .error (.invalidArgument "Moduli of the polynomials must be the same.",
          Polynomial.new [] 7)) ∧
    (Polynomial.new [1, 2] 7).mod = (Polynomial.new [3] 7).mod ∧
    (∀ what st,
      addPolynomials (Polynomial.new [] 7) (Polynomial.new [1, 2] 7) (Polynomial.new [3] 7) ≠
          .error (.invalidArgument what, st) ∧
        subtractPolynomials (Polynomial.new [] 7) (Polynomial.new [1, 2] 7)
          (Polynomial.new [3] 7) ≠ .error (.invalidArgument what, st) ∧
        multiplyPolynomials (Polynomial.new [] 7) (Polynomial.new [1, 2] 7)
          (Polynomial.new [3] 7) ≠ .error (.invalidArgument what, st)) :=
  ⟨by decide, (C11_moduli _ _ _).1 (by decide), by decide, (C11_moduli _ _ _).2 (by decide)⟩

/-! ## dividePolynomialByScalar: where the inverse is asked for -/

/-- A zero scalar is rejected before `result` is touched. -/
theorem dividePolynomialByScalar_zero_scalar (result poly : Polynomial) (scalar : BigInt)
    (hs : scalar.value = 0) :
    dividePolynomialByScalar result poly scalar =
      .error (.invalidArgument "Division by zero is not allowed.", result) := by
  have hz : scalar.isZero = true := (BigInt.isZero_iff _).mpr hs
  simp [dividePolynomialByScalar, hz]

/-- For a non-empty polynomial and a non-zero scalar that is not coprime to the
modulus, the first iteration throws from `modInverse`, after `result` has been
resized and given the modulus of `poly`. -/
theorem dividePolynomialByScalar_no_inverse (result poly : Polynomial) (scalar : BigInt)
    (hs : scalar.value ≠ 0) (hne : poly.coefficients ≠ [])
    (hg : Int.gcd scalar.value poly.mod.value ≠ 1) :
    dividePolynomialByScalar result poly scalar =
      .error (.runtimeError "Modular inverse does not exist.",
        { coefficients := vector_resize result.coefficients poly.coefficients.length BigInt.new,
          mod := poly.mod }) := by
  have hz : scalar.isZero = false := by
    rw [← Bool.not_eq_true, BigInt.isZero_iff]
    exact hs
  have hnone : mpz_invert scalar.value poly.mod.value = none := by
    cases h : mpz_invert scalar.value poly.mod.value with
    | none => rfl
    | some v => exact absurd (mpz_invert_gcd h) hg
  unfold dividePolynomialByScalar
  rw [hz]
  simp only [Bool.false_eq_true, if_false]
  apply foldlM_range_first_error _ _ _ _ (List.length_pos.mpr hne)
  unfold dividePolynomialByScalar.body
  rw [(BigInt.modInverse_error_iff _ _ _).mpr ⟨hnone, rfl⟩]

/-- For the empty polynomial and a non-zero scalar the loop does not run:
`modInverse` is never called and the call returns, whatever the scalar. -/
theorem dividePolynomialByScalar_empty (result poly : Polynomial) (scalar : BigInt)
    (hs : scalar.value ≠ 0) (he : poly.coefficients = []) :
    dividePolynomialByScalar result poly scalar = .ok { coefficients := [], mod := poly.mod } := by
  have hz : scalar.isZero = false := by
    rw [← Bool.not_eq_true, BigInt.isZero_iff]
    exact hs
  simp [dividePolynomialByScalar, hz, he, vector_resize, pure, Except.pure]

/-- C12, at the empty polynomial: 3 is non-zero and has no inverse modulo 6
(`modInverse` throws), but dividing the empty polynomial modulo 6 by 3 returns
normally, whatever `result` held. -/
theorem C12_empty_polynomial :
    BigInt.isZero ⟨3⟩ = false ∧ Int.gcd 3 6 ≠ 1 ∧
      BigInt.modInverse ⟨3⟩ ⟨6⟩ = .error (.runtimeError "Modular inverse does not exist.") ∧
      dividePolynomialByScalar (Polynomial.new [] 6) (Polynomial.new [] 6) ⟨3⟩ =
        .ok (Polynomial.new [] 6) ∧
      dividePolynomialByScalar (Polynomial.new [1, 2] 7) (Polynomial.new [] 6) ⟨3⟩ =
        .ok (Polynomial.new [] 6) := by
  decide

/-- Errors thrown by the guards (`std::invalid_argument`, `std::length_error`)
leave `result` as it was. -/
theorem guards_keep_result (result a b : Polynomial) (scalar : BigInt) (what : String)
    (st : Polynomial) :
    (addPolynomials result a b = .error (.invalidArgument what, st) → st = result) ∧
      (subtractPolynomials result a b = .error (.invalidArgument what, st) → st = result) ∧
      (multiplyPolynomials result a b = .error (.invalidArgument what, st) → st = result) ∧
      (multiplyPolynomials result a b = .error (.lengthError, st) → st = result) ∧
      (dividePolynomialByScalar result a scalar = .error (.invalidArgument what, st) →
        st = result) := by
  refine ⟨?_, ?_, ?_, ?_, ?_⟩
  · intro h
    rcases addPolynomials_error result a b _ h with ⟨-, he⟩ | ⟨-, he⟩
    · exact (Prod.mk.inj he).2
    · cases he
  · intro h
    rcases subtractPolynomials_error result a b _ h with ⟨-, he⟩ | ⟨-, he⟩
    · exact (Prod.mk.inj he).2
    · cases he
  · intro h
    rcases multiplyPolynomials_error result a b _ h with ⟨-, he⟩ | ⟨-, he | he⟩
    · exact (Prod.mk.inj he).2
    · cases he
    · cases he
  · intro h
    rcases multiplyPolynomials_error result a b _ h with ⟨-, he⟩ | ⟨-, he | he⟩
    · cases he
    · exact (Prod.mk.inj he).2
    · cases he
  · intro h
    rcases dividePolynomialByScalar_error result a scalar _ h with ⟨-, he⟩ | ⟨-, he | he⟩
    · exact (Prod.mk.inj he).2
    · cases he
    · cases he

/-- C13, at a scalar without inverse: dividing `[1, 2, 3]` modulo 6 by 3 throws
from `modInverse` and leaves a `result` that was constructed empty with three
zero coefficients (and one constructed modulo 7 with the modulus 6 as well). -/
theorem C13_result_mutated :
    dividePolynomialByScalar (Polynomial.new [] 6) (Polynomial.new [1, 2, 3] 6) ⟨3⟩ =
        .error (.runtimeError "Modular inverse does not exist.", Polynomial.new [0, 0, 0] 6) ∧
      Polynomial.new [0, 0, 0] 6 ≠ Polynomial.new [] 6 ∧
      dividePolynomialByScalar (Polynomial.new [] 7) (Polynomial.new [1, 2, 3] 6) ⟨3⟩ =
        .error (.runtimeError "Modular inverse does not exist.", Polynomial.new [0, 0, 0] 6) ∧
      Polynomial.new [0, 0, 0] 6 ≠ Polynomial.new [] 7 := by
  decide

/-! ## interpolate: when it fails -/

/-- A counted loop in which the iterations marked `bad` fail with `e0` from every
state, and all other iterations return, fails with `e0` exactly when an
iteration is `bad`. -/
theorem foldlM_range_dichotomy {ε σ : Type} (body : σ → Nat → Except ε σ) (e0 : ε)
    (bad : Nat → Prop) (n : Nat)
    (hbad : ∀ i, i < n → bad i → ∀ s, body s i = .error e0)
    (hgood : ∀ i, i < n → ¬ bad i → ∀ s, ∃ s', body s i = .ok s') (s0 : σ) :
    ((∃ i, i < n ∧ bad i) → (List.range n).foldlM body s0 = .error e0) ∧
      ((¬ ∃ i, i < n ∧ bad i) → ∃ s, (List.range n).foldlM body s0 = .ok s) := by
  induction n with
  | zero =>
    refine ⟨?_, fun _ => ⟨s0, rfl⟩⟩
    rintro ⟨i, hi, -⟩
    exact absurd hi (Nat.not_lt_zero i)
  | succ n ih =>
    obtain ⟨ih1, ih2⟩ := ih (fun i hi => hbad i (Nat.lt_succ_of_lt hi))
      (fun i hi => hgood i (Nat.lt_succ_of_lt hi))
    rw [foldlM_range_succ]
    by_cases hex : ∃ i, i < n ∧ bad i
    · rw [ih1 hex, except_error_bind]
      refine ⟨fun _ => rfl, ?_⟩
      intro hno
      obtain ⟨i, hi, hb⟩ := hex
      exact absurd ⟨i, Nat.lt_succ_of_lt hi, hb⟩ hno
    · obtain ⟨s, hs⟩ := ih2 hex
      rw [hs, except_ok_bind]
      by_cases hn : bad n
      · rw [hbad n (Nat.lt_succ_self n) hn s]
        refine ⟨fun _ => rfl, ?_⟩
        intro hno
        exact absurd ⟨n, Nat.lt_succ_self n, hn⟩ hno
      · obtain ⟨s', hs'⟩ := hgood n (Nat.lt_succ_self n) hn s
        rw [hs']
        refine ⟨?_, fun _ => ⟨s', rfl⟩⟩
        rintro ⟨i, hi, hb⟩
        rcases Nat.lt_succ_iff_lt_or_eq.mp hi with h | h
        · exact absurd ⟨i, h, hb⟩ hex
        · subst h
          exact absurd hb hn

/-- One step of the inner loop of `interpolate` for a non-zero modulus: it throws
from `modInverse` when `j ≠ i` and the reduced difference is not coprime to the
modulus, and returns otherwise. -/
theorem interpolate_body_cases (p : Int) (hp : p ≠ 0) (f : List Data) (xi : BigInt)
    (i j : Nat) (term : BigInt) :
    ((j ≠ i ∧ Int.gcd (((f.getD i default).x.value - (f.getD j default).x.value) % p) p ≠ 1) →
        interpolate.body f xi ⟨p⟩ i term j =
          .error (.runtimeError "Modular inverse does not exist.")) ∧
      (¬ (j ≠ i ∧
          Int.gcd (((f.getD i default).x.value - (f.getD j default).x.value) % p) p ≠ 1) →
        ∃ term', interpolate.body f xi ⟨p⟩ i term j = .ok term') := by
  unfold interpolate.body
  by_cases hji : j ≠ i
  · simp only [hji, ne_eq, not_false_eq_true, if_true, true_and]
    rw [BigInt.modAssign_ok _ _ hp]
    dsimp only [BigInt.sub, mpz_sub]
    constructor
    · intro hg
      have hnone : mpz_invert (((f.getD i default).x.value - (f.getD j default).x.value) % p) p
          = none := by
        cases h : mpz_invert (((f.getD i default).x.value - (f.getD j default).x.value) % p) p with
        | none => rfl
        | some v => exact absurd (mpz_invert_gcd h) hg
      rw [(BigInt.modInverse_error_iff _ _ _).mpr ⟨hnone, rfl⟩]
    · intro hg
      obtain ⟨v, hv⟩ := mpz_invert_of_gcd hp (not_not.mp hg)
      rw [(BigInt.modInverse_ok_iff _ _ ⟨v⟩).mpr hv]
      dsimp only
      rw [BigInt.modAssign_ok _ _ hp]
      exact ⟨_, rfl⟩
  · simp only [hji, if_false, false_and, not_false_eq_true, forall_true_left, false_implies,
      true_and]
    exact ⟨term, rfl⟩

/-- One pass of the outer loop of `interpolate` for a non-zero modulus: it throws
from `modInverse` when some `j ≠ i` gives a difference not coprime to the
modulus, and returns otherwise. -/
theorem interpolate_row_cases (p : Int) (hp : p ≠ 0) (f : List Data) (xi : BigInt)
    (i : Nat) (result : BigInt) :
    ((∃ j, j < f.length ∧ (j ≠ i ∧
          Int.gcd (((f.getD i default).x.value - (f.getD j default).x.value) % p) p ≠ 1)) →
        interpolate.row f xi ⟨p⟩ result i =
          .error (.runtimeError "Modular inverse does not exist.")) ∧
      ((¬ ∃ j, j < f.length ∧ (j ≠ i ∧
          Int.gcd (((f.getD i default).x.value - (f.getD j default).x.value) % p) p ≠ 1)) →
        ∃ result', interpolate.row f xi ⟨p⟩ result i = .ok result') := by
  obtain ⟨h1, h2⟩ := foldlM_range_dichotomy (interpolate.body f xi ⟨p⟩ i)
    (.runtimeError "Modular inverse does not exist.")
    (fun j => j ≠ i ∧
      Int.gcd (((f.getD i default).x.value - (f.getD j default).x.value) % p) p ≠ 1)
    f.length
    (fun j _ hb t => (interpolate_body_cases p hp f xi i j t).1 hb)
    (fun j _ hb t => (interpolate_body_cases p hp f xi i j t).2 hb)
    (f.getD i default).y
  unfold interpolate.row
  constructor
  · intro hex
    rw [h1 hex]
  · intro hno
    obtain ⟨term, hterm⟩ := h2 hno
    rw [hterm]
    dsimp only
    rw [BigInt.modAssign_ok _ _ hp]
    exact ⟨_, rfl⟩

/-- For a non-zero modulus `interpolate` throws from `modInverse` when some pair
of different samples has a difference of x-coordinates not coprime to the
modulus, and returns otherwise. -/
theorem interpolate_cases (p : Int) (hp : p ≠ 0) (f : List Data) (xi : BigInt) :
    ((∃ i, i < f.length ∧ ∃ j, j < f.length ∧ (j ≠ i ∧
          Int.gcd (((f.getD i default).x.value - (f.getD j default).x.value) % p) p ≠ 1)) →
        interpolate f xi p = .error (.runtimeError "Modular inverse does not exist.")) ∧
      ((¬ ∃ i, i < f.length ∧ ∃ j, j < f.length ∧ (j ≠ i ∧
          Int.gcd (((f.getD i default).x.value - (f.getD j default).x.value) % p) p ≠ 1)) →
        ∃ r, interpolate f xi p = .ok r) :=
  foldlM_range_dichotomy (interpolate.row f xi ⟨p⟩)
    (.runtimeError "Modular inverse does not exist.")
    (fun i => ∃ j, j < f.length ∧ (j ≠ i ∧
      Int.gcd (((f.getD i default).x.value - (f.getD j default).x.value) % p) p ≠ 1))
    f.length
    (fun i _ hb r => (interpolate_row_cases p hp f xi i r).1 hb)
    (fun i _ hb r => (interpolate_row_cases p hp f xi i r).2 hb)
    ⟨0⟩

/-- C14: for every modulus `p > 1` and every target `xi`, a sample list with two
different entries whose x-coordinates are congruent modulo `p` makes
`interpolate` throw the `modInverse` error; `interpolate` throws that error
exactly when some pair `i ≠ j` has `gcd((x_i - x_j) mod p, p) ≠ 1`, it fails in
no other way, and without such a pair it returns a value. -/
theorem C14_interpolate_fails (p : Int) (hp : 1 < p) (f : List Data) (xi : BigInt) :
    ((∃ i j, i < f.length ∧ j < f.length ∧ i ≠ j ∧
          ((f.getD i default).x.value - (f.getD j default).x.value) % p = 0) →
        interpolate f xi p = .error (.runtimeError "Modular inverse does not exist.")) ∧
      (interpolate f xi p = .error (.runtimeError "Modular inverse does not exist.") ↔
        ∃ i j, i < f.length ∧ j < f.length ∧ i ≠ j ∧
          Int.gcd (((f.getD i default).x.value - (f.getD j default).x.value) % p) p ≠ 1) ∧
      (∀ e, interpolate f xi p = .error e →
        e = .runtimeError "Modular inverse does not exist.") ∧
      ((¬ ∃ i j, i < f.length ∧ j < f.length ∧ i ≠ j ∧
          Int.gcd (((f.getD i default).x.value - (f.getD j default).x.value) % p) p ≠ 1) →
        ∃ r, interpolate f xi p = .ok r) := by
  have hp0 : p ≠ 0 := by omega
  obtain ⟨h1, h2⟩ := interpolate_cases p hp0 f xi
  have hconv : (∃ i j, i < f.length ∧ j < f.length ∧ i ≠ j ∧
      Int.gcd (((f.getD i default).x.value - (f.getD j default).x.value) % p) p ≠ 1) ↔
      (∃ i, i < f.length ∧ ∃ j, j < f.length ∧ (j ≠ i ∧
        Int.gcd (((f.getD i default).x.value - (f.getD j default).x.value) % p) p ≠ 1)) := by
    constructor
    · rintro ⟨i, j, hi, hj, hij, hg⟩
      exact ⟨i, hi, j, hj, Ne.symm hij, hg⟩
    · rintro ⟨i, hi, j, hj, hji, hg⟩
      exact ⟨i, j, hi, hj, Ne.symm hji, hg⟩
  have hiff : interpolate f xi p = .error (.runtimeError "Modular inverse does not exist.") ↔
      ∃ i j, i < f.length ∧ j < f.length ∧ i ≠ j ∧
        Int.gcd (((f.getD i default).x.value - (f.getD j default).x.value) % p) p ≠ 1 := by
    constructor
    · intro herr
      by_contra hno
      obtain ⟨r, hr⟩ := h2 (fun h => hno (hconv.mpr h))
      rw [hr] at herr
      cases herr
    · intro hex
      exact h1 (hconv.mp hex)
  refine ⟨?_, hiff, ?_, ?_⟩
  · rintro ⟨i, j, hi, hj, hij, hzero⟩
    apply hiff.mpr
    refine ⟨i, j, hi, hj, hij, ?_⟩
    rw [hzero, Int.gcd_zero_left]
    omega
  · intro e he
    by_cases hex : ∃ i j, i < f.length ∧ j < f.length ∧ i ≠ j ∧
        Int.gcd (((f.getD i default).x.value - (f.getD j default).x.value) % p) p ≠ 1
    · rw [hiff.mpr hex] at he
      cases he
      rfl
    · obtain ⟨r, hr⟩ := h2 (fun h => hex (hconv.mpr h))
      rw [hr] at he
      cases he
  · intro hno
    exact h2 (fun h => hno (hconv.mpr h))

/-- C14 on the samples `(1, 1), (2, 4), (1, 9)` modulo 101 (what `Data` builds
from the x-coordinates 1, 2 and 102), where `interpolate` throws, by evaluation
too. -/
theorem C14_interpolate_fails_witness :
    (1 : Int) < 101 ∧
    (∃ i j, i < ([⟨⟨1⟩, ⟨1⟩⟩, ⟨⟨2⟩, ⟨4⟩⟩, ⟨⟨1⟩, ⟨9⟩⟩] : List Data).length ∧
      j < ([⟨⟨1⟩, ⟨1⟩⟩, ⟨⟨2⟩, ⟨4⟩⟩, ⟨⟨1⟩, ⟨9⟩⟩] : List Data).length ∧ i ≠ j ∧
      ((([⟨⟨1⟩, ⟨1⟩⟩, ⟨⟨2⟩, ⟨4⟩⟩, ⟨⟨1⟩, ⟨9⟩⟩] : List Data).getD i default).x.value -
        (([⟨⟨1⟩, ⟨1⟩⟩, ⟨⟨2⟩, ⟨4⟩⟩, ⟨⟨1⟩, ⟨9⟩⟩] : List Data).getD j default).x.value)
          % (101 : Int) = 0) ∧
    interpolate [⟨⟨1⟩, ⟨1⟩⟩, ⟨⟨2⟩, ⟨4⟩⟩, ⟨⟨1⟩, ⟨9⟩⟩] ⟨6⟩ 101 =
      .error (.runtimeError "Modular inverse does not exist.") ∧
    interpolate [⟨⟨1⟩, ⟨1⟩⟩, ⟨⟨2⟩, ⟨4⟩⟩, ⟨⟨1⟩, ⟨9⟩⟩] ⟨6⟩ 101 =
      .error (.runtimeError "Modular inverse does not exist.") :=
  ⟨by decide, ⟨0, 2, by decide⟩,
    (C14_interpolate_fails 101 (by decide) [⟨⟨1⟩, ⟨1⟩⟩, ⟨⟨2⟩, ⟨4⟩⟩, ⟨⟨1⟩, ⟨9⟩⟩] ⟨6⟩).1
      ⟨0, 2, by decide⟩,
    by decide⟩

/-! ## Primality -/

theorem isPrimeNat_iff (n : Nat) : isPrimeNat n = true ↔ Nat.Prime n := by
  unfold isPrimeNat
  rw [Nat.prime_def_lt']
  simp only [Bool.and_eq_true, decide_eq_true_eq, List.all_eq_true, List.mem_range,
    Bool.or_eq_true, ne_eq, Nat.dvd_iff_mod_eq_zero]
  constructor
  · rintro ⟨h2, h⟩
    refine ⟨h2, fun m hm hlt hdiv => ?_⟩
    rcases h m hlt with h' | h'
    · omega
    · exact h' hdiv
  · rintro ⟨h2, h⟩
    refine ⟨h2, fun m hlt => ?_⟩
    by_cases hm : m < 2
    · exact Or.inl hm
    · exact Or.inr (h m (by omega) hlt)

/-- The answers of `mpz_probab_prime_p`: one of 0, 1, 2; never 0 for a prime;
2 only for a prime. -/
theorem mpz_probab_prime_p_spec (S : ProbabilisticStage) (n reps : Int) :
    (mpz_probab_prime_p S n reps = 0 ∨ mpz_probab_prime_p S n reps = 1 ∨
        mpz_probab_prime_p S n reps = 2) ∧
      (Nat.Prime n.natAbs → mpz_probab_prime_p S n reps ≠ 0) ∧
      (mpz_probab_prime_p S n reps = 2 → Nat.Prime n.natAbs) ∧
      (n.natAbs ≤ 1000000 → ¬ Nat.Prime n.natAbs → mpz_probab_prime_p S n reps = 0) := by
  unfold mpz_probab_prime_p
  by_cases hp : Nat.Prime n.natAbs
  · have hb : isPrimeNat n.natAbs = true := (isPrimeNat_iff _).mpr hp
    simp only [hb, if_true, hp, not_true_eq_false, false_implies, implies_true, and_true]
    split
    · simp
    · split <;> simp
  · have hb : isPrimeNat n.natAbs = false := by
      rw [← Bool.not_eq_true, isPrimeNat_iff]
      exact hp
    simp only [hb, Bool.false_eq_true, if_false, hp, false_implies, not_false_eq_true,
      true_implies, true_and]
    split
    · simp
    · rename_i hbig
      split <;> simp [hbig]

/-- C18: for every rounds argument `r ≥ 1` (and whatever the probabilistic stage
does), `isPrime(r)` answers 0, 1 or 2; it answers 2 for 2, 3, 5, 7 and 101 and
0 for 4, 9 and 100; and it never answers 0 for a prime. -/
theorem C18_isPrime (S : ProbabilisticStage) (r : Int) (hr : 1 ≤ r) :
    (∀ a : BigInt, a.isPrime S r = 0 ∨ a.isPrime S r = 1 ∨ a.isPrime S r = 2) ∧
      (BigInt.isPrime S ⟨2⟩ r = 2 ∧ BigInt.isPrime S ⟨3⟩ r = 2 ∧ BigInt.isPrime S ⟨5⟩ r = 2 ∧
        BigInt.isPrime S ⟨7⟩ r = 2 ∧ BigInt.isPrime S ⟨101⟩ r = 2) ∧
      (BigInt.isPrime S ⟨4⟩ r = 0 ∧ BigInt.isPrime S ⟨9⟩ r = 0 ∧
        BigInt.isPrime S ⟨100⟩ r = 0) ∧
      (∀ q : Nat, q.Prime → BigInt.isPrime S ⟨(q : Int)⟩ r ≠ 0) := by
  have _ := hr
  refine ⟨fun a => (mpz_probab_prime_p_spec S a.value r).1,
    ⟨rfl, rfl, rfl, rfl, rfl⟩, ⟨rfl, rfl, rfl⟩, ?_⟩
  intro q hq
  exact (mpz_probab_prime_p_spec S (q : Int) r).2.1 (by simpa using hq)

/-- C18 with 25 rounds and a probabilistic stage that lets every composite pass. -/
theorem C18_isPrime_witness :
    (1 : Int) ≤ 25 ∧
    (∀ a : BigInt, a.isPrime ⟨fun _ _ => true, fun _ => false⟩ 25 = 0 ∨
        a.isPrime ⟨fun _ _ => true, fun _ => false⟩ 25 = 1 ∨
        a.isPrime ⟨fun _ _ => true, fun _ => false⟩ 25 = 2) ∧
      (BigInt.isPrime ⟨fun _ _ => true, fun _ => false⟩ ⟨2⟩ 25 = 2 ∧
        BigInt.isPrime ⟨fun _ _ => true, fun _ => false⟩ ⟨3⟩ 25 = 2 ∧
        BigInt.isPrime ⟨fun _ _ => true, fun _ => false⟩ ⟨5⟩ 25 = 2 ∧
        BigInt.isPrime ⟨fun _ _ => true, fun _ => false⟩ ⟨7⟩ 25 = 2 ∧
        BigInt.isPrime ⟨fun _ _ => true, fun _ => false⟩ ⟨101⟩ 25 = 2) ∧
      (BigInt.isPrime ⟨fun _ _ => true, fun _ => false⟩ ⟨4⟩ 25 = 0 ∧
        BigInt.isPrime ⟨fun _ _ => true, fun _ => false⟩ ⟨9⟩ 25 = 0 ∧
        BigInt.isPrime ⟨fun _ _ => true, fun _ => false⟩ ⟨100⟩ 25 = 0) ∧
      (∀ q : Nat, q.Prime →
        BigInt.isPrime ⟨fun _ _ => true, fun _ => false⟩ ⟨(q : Int)⟩ 25 ≠ 0) :=
  ⟨by decide, C18_isPrime ⟨fun _ _ => true, fun _ => false⟩ 25 (by decide)⟩

/-- The search of `mpz_nextprime`, when a candidate within the fuel is accepted
by the primality test: it returns the first accepted candidate. -/
theorem mpz_nextprime_search_spec (S : ProbabilisticStage) (fuel c : Nat)
    (hex : ∃ d, c ≤ d ∧ d < c + fuel ∧ mpz_probab_prime_p S (d : Int) 25 ≠ 0) :
    c ≤ mpz_nextprime.search S fuel c ∧
      mpz_probab_prime_p S (mpz_nextprime.search S fuel c : Nat) 25 ≠ 0 ∧
      ∀ d, c ≤ d → d < mpz_nextprime.search S fuel c →
        mpz_probab_prime_p S (d : Int) 25 = 0 := by
  induction fuel generalizing c with
  | zero =>
    obtain ⟨d, h1, h2, -⟩ := hex
    omega
  | succ fuel ih =>
    unfold mpz_nextprime.search
    by_cases hc : mpz_probab_prime_p S (c : Int) 25 ≠ 0
    · rw [if_pos hc]
      exact ⟨le_refl c, hc, fun d h1 h2 => absurd h2 (by omega)⟩
    · rw [if_neg hc]
      obtain ⟨d, h1, h2, h3⟩ := hex
      have hdc : d ≠ c := by
        rintro rfl
        exact hc h3
      obtain ⟨i1, i2, i3⟩ := ih (c + 1) ⟨d, by omega, by omega, h3⟩
      refine ⟨by omega, i2, ?_⟩
      intro d' hd1 hd2
      by_cases hd' : d' = c
      · subst hd'
        exact not_not.mp hc
      · exact i3 d' (by omega) hd2

/-- What `mpz_nextprime` returns: a number strictly greater than `op` that the
primality test accepts, with every number in between rejected; it is at most
any prime greater than `op`, and it is prime when it is at most `1000000`. -/
theorem mpz_nextprime_spec (S : ProbabilisticStage) (op : Int) :
    op < mpz_nextprime S op ∧
      mpz_probab_prime_p S (mpz_nextprime S op) 25 ≠ 0 ∧
      (∀ d : Nat, op < (d : Int) → (d : Int) < mpz_nextprime S op →
        mpz_probab_prime_p S (d : Int) 25 = 0) ∧
      (∀ q : Nat, q.Prime → op < (q : Int) → mpz_nextprime S op ≤ (q : Int)) ∧
      (mpz_nextprime S op ≤ 1000000 → Nat.Prime (mpz_nextprime S op).natAbs) := by
  have hex : ∃ d, op.toNat + 1 ≤ d ∧ d < op.toNat + 1 + (op.toNat + 2) ∧
      mpz_probab_prime_p S (d : Int) 25 ≠ 0 := by
    by_cases h0 : op.toNat = 0
    · exact ⟨2, by omega, by omega,
        (mpz_probab_prime_p_spec S ((2 : Nat) : Int) 25).2.1 (by norm_num)⟩
    · obtain ⟨q, hq, h1, h2⟩ := Nat.exists_prime_lt_and_le_two_mul op.toNat h0
      exact ⟨q, by omega, by omega,
        (mpz_probab_prime_p_spec S (q : Int) 25).2.1 (by simpa using hq)⟩
  obtain ⟨h1, h2, h3⟩ := mpz_nextprime_search_spec S (op.toNat + 2) (op.toNat + 1) hex
  have hlt : op < mpz_nextprime S op := by
    unfold mpz_nextprime
    omega
  have hmin : ∀ d : Nat, op < (d : Int) → (d : Int) < mpz_nextprime S op →
      mpz_probab_prime_p S (d : Int) 25 = 0 := by
    intro d hd1 hd2
    unfold mpz_nextprime at hd2
    by_cases hd0 : d = 0
    · subst hd0
      exact (mpz_probab_prime_p_spec S ((0 : Nat) : Int) 25).2.2.2 (by decide) (by decide)
    · exact h3 d (by omega) (by omega)
  refine ⟨hlt, h2, hmin, ?_, ?_⟩
  · intro q hq hlt'
    by_contra hcon
    have := hmin q hlt' (lt_of_not_le hcon)
    exact (mpz_probab_prime_p_spec S (q : Int) 25).2.1 (by simpa using hq) this
  · intro hsmall
    by_contra hnp
    have hnn : 0 ≤ mpz_nextprime S op := by
      unfold mpz_nextprime
      exact Int.ofNat_nonneg _
    have hsmall' : (mpz_nextprime S op).natAbs ≤ 1000000 := by omega
    exact h2 ((mpz_probab_prime_p_spec S (mpz_nextprime S op) 25).2.2.2 hsmall' hnp)

/-- C17, at a prime `startAt`: 101 is prime, yet `nextPrime(101)` is 103 (and
`nextPrime(2)` is 3), for either value of the flag; only for a composite
`startAt` such as 100 does the claim's value come out.  In general the result
is strictly greater than `startAt`. -/
theorem C17_nextPrime_strict (S : ProbabilisticStage) (provable : Int) :
    Nat.Prime 101 ∧ BigInt.nextPrime S ⟨101⟩ provable = ⟨103⟩ ∧
      BigInt.nextPrime S ⟨2⟩ provable = ⟨3⟩ ∧
      BigInt.nextPrime S ⟨100⟩ provable = ⟨101⟩ ∧
      ∀ startAt : BigInt, startAt.value < (BigInt.nextPrime S startAt provable).value := by
  refine ⟨by norm_num, rfl, rfl, rfl, ?_⟩
  intro startAt
  exact (mpz_nextprime_spec S startAt.value).1

end SnarkCpp

/-! # Theorems (concluded) -/

namespace SnarkCpp

/-! ## subtractPolynomials -/

/-- With a non-zero modulus the loop body of `subtractPolynomials` stores the
reduced difference. -/
theorem subtractPolynomials_body_ok (a b result : Polynomial) (i : Nat)
    (hm : a.mod.value ≠ 0) :
    subtractPolynomials.body a b result i = .ok { result with
      coefficients := result.coefficients.set i
        ⟨((a.coefficients.getD i ⟨0⟩).value - (b.coefficients.getD i ⟨0⟩).value) % a.mod.value⟩ } := by
  unfold subtractPolynomials.body
  simp only [padded_coefficient]
  rw [BigInt.modAssign_ok _ _ hm]
  rfl

/-- With equal, non-zero moduli `subtractPolynomials` returns, and the final
state of `result` is the tabulated reduced difference, whatever `result` held
before. -/
theorem subtractPolynomials_ok (result a b : Polynomial) (hmod : a.mod = b.mod)
    (hm : a.mod.value ≠ 0) :
    subtractPolynomials result a b = .ok
      { coefficients := (List.range (max a.coefficients.length b.coefficients.length)).map
          (fun i => ⟨((a.coefficients.getD i ⟨0⟩).value - (b.coefficients.getD i ⟨0⟩).value)
            % a.mod.value⟩),
        mod := a.mod } := by
  unfold subtractPolynomials
  rw [← hmod, BigInt.ne_self]
  simp only [Bool.false_eq_true, if_false]
  obtain ⟨r, hr, hmodr, hlen, hpre⟩ := foldlM_range_inv (subtractPolynomials.body a b)
    (fun i r => r.mod = a.mod ∧
      r.coefficients.length = max a.coefficients.length b.coefficients.length ∧
      ∀ k, k < i → r.coefficients[k]? = some
        ⟨((a.coefficients.getD k ⟨0⟩).value - (b.coefficients.getD k ⟨0⟩).value) % a.mod.value⟩)
    (max a.coefficients.length b.coefficients.length)
    { coefficients := vector_resize result.coefficients
        (max a.coefficients.length b.coefficients.length) BigInt.new, mod := a.mod }
    ⟨rfl, vector_resize_length _ _ _, fun k hk => absurd hk (Nat.not_lt_zero k)⟩
    (by
      intro i hi s ⟨hs1, hs2, hs3⟩
      refine ⟨_, subtractPolynomials_body_ok a b s i hm, hs1, ?_⟩
      exact set_agree_step _ s.coefficients _ i hi hs2 hs3)
  rw [hr]
  congr 1
  cases r
  simp only [Polynomial.mk.injEq]
  exact ⟨eq_map_range_of_agree _ _ _ hlen hpre, hmodr⟩

/-- Subtracting a polynomial from itself (non-zero modulus) leaves as many zero
coefficients as it has coefficients: nothing is trimmed. -/
theorem subtractPolynomials_self (result a : Polynomial) (hm : a.mod.value ≠ 0) :
    subtractPolynomials result a a = .ok
      { coefficients := List.replicate a.coefficients.length ⟨0⟩, mod := a.mod } := by
  rw [subtractPolynomials_ok result a a rfl hm]
  congr 2
  apply List.ext_getElem?
  intro k
  by_cases hk : k < a.coefficients.length
  · simp [hk, List.getElem?_replicate]
  · simp [hk, List.getElem?_replicate]

theorem deg_of_length (p : Polynomial) (h1 : 1 ≤ p.coefficients.length)
    (h2 : p.coefficients.length ≤ 2 ^ 31) : p.deg = (p.coefficients.length : Int) - 1 := by
  unfold Polynomial.deg
  have : (p.coefficients.length + 2 ^ 64 - 1) % 2 ^ 64 = p.coefficients.length - 1 := by
    omega
  rw [this, int_of_size_t_of_lt (by omega)]
  omega

/-- C21: for polynomials `a`, `b` sharing a modulus `m > 0` and any prior
contents of `result`, `subtractPolynomials` returns with `result` holding
exactly `max(len a, len b)` coefficients, the `i`-th being `(a_i - b_i) mod m`
in `[0, m)`, a missing coefficient counting as 0; nothing is trimmed:
`subtractPolynomials(r, a, a)` leaves `len(a)` zero coefficients, `r.deg()` is
what `a.deg()` is, and for a non-empty `a` (of at most `2^31` coefficients, so
that the count fits `int`) that is `len(a) - 1`. -/
theorem C21_subtractPolynomials (result a b : Polynomial) (hmod : a.mod = b.mod)
    (hm : 0 < a.mod.value) :
    (∃ r, subtractPolynomials result a b = .ok r ∧ r.mod = a.mod ∧
      r.coefficients.length = max a.coefficients.length b.coefficients.length ∧
      ∀ i, i < max a.coefficients.length b.coefficients.length →
        ∃ c, r.coefficients[i]? = some c ∧
          c.value = ((a.coefficients.getD i ⟨0⟩).value - (b.coefficients.getD i ⟨0⟩).value)
            % a.mod.value ∧
          0 ≤ c.value ∧ c.value < a.mod.value) ∧
    (∃ r, subtractPolynomials result a a = .ok r ∧
      r.coefficients = List.replicate a.coefficients.length ⟨0⟩ ∧ r.deg = a.deg ∧
      (a.coefficients ≠ [] → a.coefficients.length ≤ 2 ^ 31 →
        r.deg = (a.coefficients.length : Int) - 1)) := by
  constructor
  · refine ⟨_, subtractPolynomials_ok result a b hmod (ne_of_gt hm), rfl, by simp, ?_⟩
    intro i hi
    exact ⟨_, by simp [hi], rfl, Int.emod_nonneg _ (ne_of_gt hm), Int.emod_lt_of_pos _ hm⟩
  · refine ⟨_, subtractPolynomials_self result a (ne_of_gt hm), rfl, ?_, ?_⟩
    · simp [Polynomial.deg]
    intro hne hlen
    have h1 : 1 ≤ a.coefficients.length := List.length_pos.mpr hne
    rw [deg_of_length _ (by simpa using h1) (by simpa using hlen)]
    simp

/-- The subtraction of the demo program: C21 applied to it, and the differences
`[4, 1, 1, 1]`, the four zeros of `a - a` and their reported degree 3 by
evaluation. -/
theorem C21_subtractPolynomials_witness :
    (Polynomial.new [1, -2, 3, 15] 7).mod = (Polynomial.new [-3, 4, 2] 7).mod ∧
    0 < (Polynomial.new [1, -2, 3, 15] 7).mod.value ∧
    ((∃ r, subtractPolynomials (Polynomial.new [5, 2, 5, 1] 7) (Polynomial.new [1, -2, 3, 15] 7)
        (Polynomial.new [-3, 4, 2] 7) = .ok r ∧
      r.mod = (Polynomial.new [1, -2, 3, 15] 7).mod ∧
      r.coefficients.length = max (Polynomial.new [1, -2, 3, 15] 7).coefficients.length
        (Polynomial.new [-3, 4, 2] 7).coefficients.length ∧
      ∀ i, i < max (Polynomial.new [1, -2, 3, 15] 7).coefficients.length
          (Polynomial.new [-3, 4, 2] 7).coefficients.length →
        ∃ c, r.coefficients[i]? = some c ∧
          c.value = (((Polynomial.new [1, -2, 3, 15] 7).coefficients.getD i ⟨0⟩).value -
            ((Polynomial.new [-3, 4, 2] 7).coefficients.getD i ⟨0⟩).value)
            % (Polynomial.new [1, -2, 3, 15] 7).mod.value ∧
          0 ≤ c.value ∧ c.value < (Polynomial.new [1, -2, 3, 15] 7).mod.value) ∧
    (∃ r, subtractPolynomials (Polynomial.new [5, 2, 5, 1] 7) (Polynomial.new [1, -2, 3, 15] 7)
        (Polynomial.new [1, -2, 3, 15] 7) = .ok r ∧
      r.coefficients = List.replicate (Polynomial.new [1, -2, 3, 15] 7).coefficients.length ⟨0⟩ ∧
      r.deg = (Polynomial.new [1, -2, 3, 15] 7).deg ∧
      ((Polynomial.new [1, -2, 3, 15] 7).coefficients ≠ [] →
        (Polynomial.new [1, -2, 3, 15] 7).coefficients.length ≤ 2 ^ 31 →
        r.deg = ((Polynomial.new [1, -2, 3, 15] 7).coefficients.length : Int) - 1))) ∧
    subtractPolynomials (Polynomial.new [5, 2, 5, 1] 7) (Polynomial.new [1, -2, 3, 15] 7)
      (Polynomial.new [-3, 4, 2] 7) = .ok (Polynomial.new [4, 1, 1, 1] 7) ∧
    subtractPolynomials (Polynomial.new [5, 2, 5, 1] 7) (Polynomial.new [1, -2, 3, 15] 7)
      (Polynomial.new [1, -2, 3, 15] 7) = .ok (Polynomial.new [0, 0, 0, 0] 7) ∧
    (Polynomial.new [0, 0, 0, 0] 7).deg = 3 :=
  ⟨by decide, by decide, C21_subtractPolynomials _ _ _ (by decide) (by decide),
    by decide, by decide, by decide⟩

/-! ## multiplyPolynomials and the prior contents of `result` -/

/-- Two `result` arguments that both hold no coefficients give the same product
(non-empty operands, equal non-zero moduli, a result that fits a vector). -/
theorem multiplyPolynomials_empty_results (r1 r2 a b : Polynomial)
    (h1 : r1.coefficients = []) (h2 : r2.coefficients = [])
    (hmod : a.mod = b.mod) (hm : a.mod.value ≠ 0)
    (ha : a.coefficients ≠ []) (hb : b.coefficients ≠ [])
    (hsize : a.coefficients.length + b.coefficients.length - 1 ≤ vector_max_size) :
    ∃ r, multiplyPolynomials r1 a b = .ok r ∧ multiplyPolynomials r2 a b = .ok r := by
  obtain ⟨s1, hs1, m1, l1, c1⟩ := multiplyPolynomials_ok r1 a b h1 hmod hm ha hb hsize
  obtain ⟨s2, hs2, m2, l2, c2⟩ := multiplyPolynomials_ok r2 a b h2 hmod hm ha hb hsize
  have hc : s2.coefficients = s1.coefficients := by
    apply List.ext_getElem?
    intro k
    by_cases hk : k < a.coefficients.length + b.coefficients.length - 1
    · rw [c1 k hk, c2 k hk]
    · rw [List.getElem?_eq_none (by omega), List.getElem?_eq_none (by omega)]
  have hmm : s2.mod = s1.mod := m2.trans m1.symm
  refine ⟨s1, hs1, ?_⟩
  rw [hs2]
  congr 1
  cases s1
  cases s2
  simp only [Polynomial.mk.injEq]
  exact ⟨hc, hmm⟩

/-- C22, at a `result` that still holds an earlier sum: with `result` constructed
empty the product of the demo program is `[4, 3, 6, 5, 3, 2]`; with `result`
holding `[5, 2, 5, 1]` (what `addPolynomials` left for the same operands) the
same call leaves `[2, 5, 4, 6, 3, 2]`, because `resize` keeps the old
coefficients and the loop adds onto them. -/
theorem C22_stale_result :
    multiplyPolynomials (Polynomial.new [] 7) (Polynomial.new [1, -2, 3, 15] 7)
        (Polynomial.new [-3, 4, 2] 7) = .ok (Polynomial.new [4, 3, 6, 5, 3, 2] 7) ∧
      addPolynomials (Polynomial.new [] 7) (Polynomial.new [1, -2, 3, 15] 7)
        (Polynomial.new [-3, 4, 2] 7) = .ok (Polynomial.new [5, 2, 5, 1] 7) ∧
      multiplyPolynomials (Polynomial.new [5, 2, 5, 1] 7) (Polynomial.new [1, -2, 3, 15] 7)
        (Polynomial.new [-3, 4, 2] 7) = .ok (Polynomial.new [2, 5, 4, 6, 3, 2] 7) ∧
      Polynomial.new [4, 3, 6, 5, 3, 2] 7 ≠ Polynomial.new [2, 5, 4, 6, 3, 2] 7 := by
  decide

/-! ## Scalar round trip on reduced coefficients -/

/-- C24: for every modulus `m > 1`, every polynomial `p` whose coefficients all
lie in `[0, m)` and every scalar `s` with `gcd(s, m) = 1` (of any sign and
size), whatever the result arguments held before,
`multiplyPolynomialByScalar(p, s)` returns and `dividePolynomialByScalar` of its
result by `s` returns exactly `p`: same coefficients, same length, same
modulus. -/
theorem C24_scalar_roundtrip_reduced (r1 r2 p : Polynomial) (s : BigInt)
    (hm : 1 < p.mod.value)
    (hred : ∀ c ∈ p.coefficients, 0 ≤ c.value ∧ c.value < p.mod.value)
    (hg : Int.gcd s.value p.mod.value = 1) :
    ∃ q, multiplyPolynomialByScalar r1 p s = .ok q ∧
      dividePolynomialByScalar r2 q s = .ok p := by
  have hm0 : p.mod.value ≠ 0 := by omega
  have hs : s.value ≠ 0 := by
    intro h0
    rw [h0, Int.gcd_zero_left] at hg
    omega
  obtain ⟨q, hq, hr⟩ := scalar_roundtrip r1 r2 p s hm0 hs hg
  refine ⟨q, hq, ?_⟩
  rw [hr]
  congr 1
  cases p with
  | mk coeffs m =>
    simp only [Polynomial.mk.injEq, and_true]
    rw [map_eq_self_iff]
    intro c hc
    cases c with
    | mk cv =>
      have h := hred ⟨cv⟩ hc
      simp only [Int.emod_eq_of_lt h.1 h.2]

/-- C24 on `[1, 2, 3]` modulo 7 with the negative scalar `-3`, and the round trip
with the scalars `-3` and `10` by evaluation. -/
theorem C24_scalar_roundtrip_reduced_witness :
    1 < (Polynomial.new [1, 2, 3] 7).mod.value ∧
    (∀ c ∈ (Polynomial.new [1, 2, 3] 7).coefficients,
      0 ≤ c.value ∧ c.value < (Polynomial.new [1, 2, 3] 7).mod.value) ∧
    Int.gcd (-3) (Polynomial.new [1, 2, 3] 7).mod.value = 1 ∧
    (∃ q, multiplyPolynomialByScalar (Polynomial.new [] 7) (Polynomial.new [1, 2, 3] 7) ⟨-3⟩
        = .ok q ∧
      dividePolynomialByScalar (Polynomial.new [] 7) q ⟨-3⟩ = .ok (Polynomial.new [1, 2, 3] 7)) ∧
    multiplyPolynomialByScalar (Polynomial.new [] 7) (Polynomial.new [1, 2, 3] 7) ⟨-3⟩
      = .ok (Polynomial.new [4, 1, 5] 7) ∧
    dividePolynomialByScalar (Polynomial.new [] 7) (Polynomial.new [4, 1, 5] 7) ⟨-3⟩
      = .ok (Polynomial.new [1, 2, 3] 7) ∧
    multiplyPolynomialByScalar (Polynomial.new [] 7) (Polynomial.new [1, 2, 3] 7) ⟨10⟩
      = .ok (Polynomial.new [3, 6, 2] 7) ∧
    dividePolynomialByScalar (Polynomial.new [] 7) (Polynomial.new [3, 6, 2] 7) ⟨10⟩
      = .ok (Polynomial.new [1, 2, 3] 7) :=
  ⟨by decide, by decide, by decide,
    C24_scalar_roundtrip_reduced _ _ (Polynomial.new [1, 2, 3] 7) ⟨-3⟩ (by decide) (by decide)
      (by decide),
    by decide, by decide, by decide, by decide⟩

/-! ## nextPrime and its flag -/

/-- C26: `nextPrime` does not read `provable`: for every `startAt` and any two
flag values the results are equal (`==`), both being `mpz_nextprime` of
`startAt`, which is passed by `const` reference (here: by value) and not
changed. -/
theorem C26_nextPrime_ignores_flag (S : ProbabilisticStage) (startAt : BigInt) (p1 p2 : Int) :
    BigInt.eq (BigInt.nextPrime S startAt p1) (BigInt.nextPrime S startAt p2) = true ∧
      BigInt.nextPrime S startAt p1 = BigInt.nextPrime S startAt p2 ∧
      BigInt.nextPrime S startAt p1 = ⟨mpz_nextprime S startAt.value⟩ := by
  refine ⟨(BigInt.eq_iff _ _).mpr rfl, rfl, rfl⟩

/-! ## The test program -/

theorem mpz_cmp_neg_iff (a b : Int) : mpz_cmp a b < 0 ↔ a < b := by
  unfold mpz_cmp
  rcases lt_trichotomy (a - b) 0 with h | h | h
  · rw [Int.sign_eq_neg_one_of_neg h]
    constructor
    · intro _; omega
    · intro _; decide
  · rw [h, Int.sign_zero]
    constructor
    · intro h'; exact absurd h' (by decide)
    · intro _; omega
  · rw [Int.sign_eq_one_of_pos h]
    constructor
    · intro h'; exact absurd h' (by decide)
    · intro _; omega

/-- The limb count at the limb boundaries: 0 has no limb, `2 ^ 64 - 1` fills one
limb, `2 ^ 64` and `-(2 ^ 64)` need two. -/
theorem mpz_size_examples :
    mpz_size 0 = 0 ∧ mpz_size 1 = 1 ∧ mpz_size (-1) = 1 ∧ mpz_size (2 ^ 64 - 1) = 1 ∧
      mpz_size (2 ^ 64) = 2 ∧ mpz_size (-(2 ^ 64)) = 2 ∧ mpz_size (2 ^ 128 - 1) = 2 := by
  decide

theorem mpz_size_limbs_zero (fuel : Nat) : mpz_size.limbs fuel 0 = 0 := by
  cases fuel with
  | zero => rfl
  | succ fuel => simp [mpz_size.limbs]

theorem mpz_size_limbs_two_pow (fuel k : Nat) (hfuel : k / 64 + 1 ≤ fuel) :
    mpz_size.limbs fuel (2 ^ k) = k / 64 + 1 := by
  induction fuel generalizing k with
  | zero => omega
  | succ fuel ih =>
    have hne : (2 : Nat) ^ k ≠ 0 := by positivity
    unfold mpz_size.limbs
    rw [if_neg hne]
    by_cases hk : 64 ≤ k
    · rw [Nat.pow_div hk (by decide), ih (k - 64) (by omega)]
      omega
    · have hlt : (2 : Nat) ^ k < 2 ^ 64 := Nat.pow_lt_pow_right (by decide) (by omega)
      rw [Nat.div_eq_of_lt hlt, mpz_size_limbs_zero]
      omega

/-- A power of two `2 ^ k` occupies `k / 64 + 1` limbs. -/
theorem mpz_size_two_pow (k : Nat) : mpz_size (2 ^ k) = k / 64 + 1 := by
  have habs : ((2 : Int) ^ k).natAbs = 2 ^ k := by
    rw [Int.natAbs_pow]
    rfl
  have hlt : k < 2 ^ k := Nat.lt_two_pow k
  unfold mpz_size
  rw [habs, mpz_size_limbs_two_pow _ k (by omega)]

/-- Doubling `2 ^ k` succeeds as long as `k` is below 64 * (`INT_MAX` - 1). -/
theorem mpz_mul_ui_two_pow_ok (k : Nat) (hk : k < 64 * (mpz_max_limbs - 1)) :
    mpz_mul_ui (2 ^ k) 2 = .ok (2 ^ (k + 1)) := by
  have hne : (2 : Int) ^ k ≠ 0 := by positivity
  have hmax : mpz_max_limbs = 2147483647 := by decide
  rw [hmax] at hk
  unfold mpz_mul_ui
  rw [if_neg (by simp [hne]), mpz_size_two_pow, hmax, if_neg (by omega), pow_succ]
  rfl

/-- Doubling `2 ^ k` aborts from `k` = 64 * (`INT_MAX` - 1) on. -/
theorem mpz_mul_ui_two_pow_overflow (k : Nat) (hk : 64 * (mpz_max_limbs - 1) ≤ k) :
    mpz_mul_ui (2 ^ k) 2 = .error .mpzOverflow := by
  have hne : (2 : Int) ^ k ≠ 0 := by positivity
  have hmax : mpz_max_limbs = 2147483647 := by decide
  rw [hmax] at hk
  unfold mpz_mul_ui
  rw [if_neg (by simp [hne]), mpz_size_two_pow, hmax, if_pos (by omega)]

/-- The loop of `E` does not run when the counter is not below `exp`. -/
theorem E_loop_stop (exp : Int) (fuel : Nat) (i rop : Int) (h : exp ≤ i) :
    E.loop exp fuel i rop = some (.ok rop) := by
  have hni : ¬ mpz_cmp i exp < 0 := by
    rw [mpz_cmp_neg_iff]
    omega
  cases fuel with
  | zero => simp [E.loop, hni]
  | succ fuel => simp [E.loop, hni]

/-- The loop of `E` with enough fuel and within GMP's capacity: it stops, having
doubled the accumulator once for every counter value from `i` up to `exp - 1`. -/
theorem E_loop_spec (exp : Int) (fuel : Nat) (i : Int) (k : Nat)
    (hfuel : (exp - i).toNat ≤ fuel)
    (hcap : k + (exp - i).toNat ≤ 64 * (mpz_max_limbs - 1)) :
    E.loop exp fuel i (2 ^ k) = some (.ok (2 ^ (k + (exp - i).toNat))) := by
  induction fuel generalizing i k with
  | zero =>
    have h0 : (exp - i).toNat = 0 := by omega
    rw [E_loop_stop exp 0 i _ (by omega), h0, Nat.add_zero]
  | succ fuel ih =>
    by_cases hlt : i < exp
    · have hc : mpz_cmp i exp < 0 := (mpz_cmp_neg_iff i exp).mpr hlt
      have hstep : (exp - i).toNat = (exp - mpz_add_ui i 1).toNat + 1 := by
        unfold mpz_add_ui
        omega
      unfold E.loop
      rw [if_pos hc, mpz_mul_ui_two_pow_ok k (by omega)]
      dsimp only
      rw [ih (mpz_add_ui i 1) (k + 1) (by omega) (by omega), hstep]
      congr 3
      omega
    · have h0 : (exp - i).toNat = 0 := by omega
      rw [E_loop_stop exp _ i _ (by omega), h0, Nat.add_zero]

/-- The loop of `E` with more doublings ahead than GMP's capacity allows: whatever
the fuel, it does not return a value. -/
theorem E_loop_overflow (exp : Int) (fuel : Nat) (i : Int) (k : Nat)
    (hk : k ≤ 64 * (mpz_max_limbs - 1))
    (hfar : 64 * (mpz_max_limbs - 1) < k + (exp - i).toNat) :
    E.loop exp fuel i (2 ^ k) = none ∨ E.loop exp fuel i (2 ^ k) = some (.error .mpzOverflow) := by
  induction fuel generalizing i k with
  | zero =>
    have hc : mpz_cmp i exp < 0 := (mpz_cmp_neg_iff i exp).mpr (by omega)
    left
    simp [E.loop, hc]
  | succ fuel ih =>
    have hc : mpz_cmp i exp < 0 := (mpz_cmp_neg_iff i exp).mpr (by omega)
    unfold E.loop
    rw [if_pos hc]
    by_cases hlast : 64 * (mpz_max_limbs - 1) ≤ k
    · right
      rw [mpz_mul_ui_two_pow_overflow k hlast]
    · rw [mpz_mul_ui_two_pow_ok k (by omega)]
      dsimp only
      refine ih (mpz_add_ui i 1) (k + 1) (by omega) ?_
      unfold mpz_add_ui
      omega

/-- C23 (what the code does): the loop counter of `E` is read uninitialised, so
the value `E` leaves in `rop` is decided by what the stack holds, not by `exp`
alone.  Whenever the stack content is not below `exp` the loop does not run and
`rop` stays 1; in general `rop` is `2 ^ (exp - stack)`, which is `2 ^ exp` only
for a counter that happens to start at 0 (`E(1)` is 2 then, and 1 for any other
content from 1 on).  The test program, on its own two numbers, prints "Proof
accepted" for every stack content not below the exponents, all three values of
`E` being 1; on other content the comparison can fail (the quotient is 1 against
2 for the exponents 6 and 5 with counters 0, 3, 0).  And were all counters 0, the
test's `x = 12345678901234567890` is out of reach: `E` aborts in GMP before it
gets there, so the test prints nothing. -/
theorem C23_E_uninitialised_counter :
    (∀ (fuel : Nat) (stack exp : Int), exp ≤ stack → E fuel stack exp = some (.ok 1)) ∧
    (∀ (fuel : Nat) (stack exp : Int), (exp - stack).toNat ≤ fuel →
      (exp - stack).toNat ≤ 64 * (mpz_max_limbs - 1) →
      E fuel stack exp = some (.ok (2 ^ (exp - stack).toNat))) ∧
    (E 1 0 1 = some (.ok 2) ∧ E 1 1 1 = some (.ok 1) ∧ E 1 7 1 = some (.ok 1)) ∧
    (∀ (fuel : Nat) (stackx stacky stack1 : Int), 12345678901234567890 ≤ stackx →
      12345678901234567889 ≤ stacky → 1 ≤ stack1 →
      test_homomorphic_holding fuel stackx stacky stack1
        12345678901234567890 12345678901234567889 = some (.ok true)) ∧
    test_homomorphic_holding 10 0 3 0 6 5 = some (.ok false) ∧
    (∀ fuel : Nat, E fuel 0 12345678901234567890 = none ∨
      E fuel 0 12345678901234567890 = some (.error .mpzOverflow)) ∧
    (∀ fuel : Nat,
      test_homomorphic_holding fuel 0 0 0 12345678901234567890 12345678901234567889 = none ∨
      test_homomorphic_holding fuel 0 0 0 12345678901234567890 12345678901234567889
        = some (.error .mpzOverflow)) := by
  have hmax : mpz_max_limbs = 2147483647 := by decide
  have hx : ∀ fuel : Nat, E fuel 0 12345678901234567890 = none ∨
      E fuel 0 12345678901234567890 = some (.error .mpzOverflow) := by
    intro fuel
    have h := E_loop_overflow 12345678901234567890 fuel 0 0 (by omega) (by rw [hmax]; decide)
    simpa [E] using h
  refine ⟨?_, ?_, ⟨by decide, by decide, by decide⟩, ?_, by decide, hx, ?_⟩
  · intro fuel stack exp h
    exact E_loop_stop exp fuel stack 1 h
  · intro fuel stack exp hfuel hcap
    have h := E_loop_spec exp fuel stack 0 hfuel (by omega)
    simpa [E] using h
  · intro fuel stackx stacky stack1 hsx hsy hs1
    unfold test_homomorphic_holding E
    rw [E_loop_stop _ fuel stackx 1 hsx, E_loop_stop _ fuel stacky 1 hsy,
      E_loop_stop _ fuel stack1 1 hs1]
    rfl
  · intro fuel
    unfold test_homomorphic_holding
    rcases hx fuel with h | h
    · left
      rw [h]
    · right
      rw [h]

end SnarkCpp

namespace Interpolation

/-- Abscissae that are pairwise distinct modulo `p` are distinct elements of
`ZMod p`. -/
theorem injOn_abscissae (p : Nat) (f : List SnarkCpp.Data)
    (hdist : ∀ i, i < f.length → ∀ j, j < f.length → i ≠ j →
      ((f.getD i default).x.value - (f.getD j default).x.value) % (p : Int) ≠ 0) :
    Set.InjOn (fun i => ((f.getD i default).x.value : ZMod p))
      (Finset.range f.length : Set ℕ) := by
  intro i hi j hj hij
  by_contra hne
  have hi' : i < f.length := Finset.mem_range.mp hi
  have hj' : j < f.length := Finset.mem_range.mp hj
  apply hdist i hi' j hj' hne
  apply Int.emod_eq_zero_of_dvd
  rw [← ZMod.intCast_zmod_eq_zero_iff_dvd]
  push_cast
  exact sub_eq_zero.mpr hij

/-- What the `Data` constructor stores is reduced: `0 ≤ x, y < p` for a positive
modulus `p`. -/
theorem data_reduced (p : Nat) (hp : 0 < p) (d : SnarkCpp.Data) (x y : Int)
    (h : SnarkCpp.Data.new x y (p : Int) = .ok d) :
    (0 ≤ d.x.value ∧ d.x.value < (p : Int)) ∧ (0 ≤ d.y.value ∧ d.y.value < (p : Int)) := by
  have hm : (p : Int) ≠ 0 := by exact_mod_cast (Nat.pos_iff_ne_zero.mp hp)
  have hpos : (0 : Int) < (p : Int) := by exact_mod_cast hp
  unfold SnarkCpp.Data.new at h
  rw [SnarkCpp.BigInt.modAssign_ok _ _ hm, SnarkCpp.BigInt.modAssign_ok _ _ hm] at h
  cases h
  exact ⟨⟨Int.emod_nonneg _ hm, Int.emod_lt_of_pos _ hpos⟩,
    ⟨Int.emod_nonneg _ hm, Int.emod_lt_of_pos _ hpos⟩⟩

/-- C25: for every prime `p` and every sample list built by `Data` with
x-coordinates pairwise distinct modulo `p`, interpolating at a target congruent
modulo `p` to the x-coordinate of the sample `k` returns exactly the stored
`y_k`, which lies in `[0, p)`; every other basis term has the factor
`xi - x_k` and is zero modulo `p`. -/
theorem C25_interpolate_at_node (p : Nat) (hp : p.Prime) (f : List SnarkCpp.Data)
    (xi : SnarkCpp.BigInt) (k : Nat) (hk : k < f.length)
    (hbuilt : ∀ d ∈ f, ∃ x y : Int, SnarkCpp.Data.new x y (p : Int) = .ok d)
    (hdist : ∀ i, i < f.length → ∀ j, j < f.length → i ≠ j →
      ((f.getD i default).x.value - (f.getD j default).x.value) % (p : Int) ≠ 0)
    (hxi : (xi.value - (f.getD k default).x.value) % (p : Int) = 0) :
    SnarkCpp.interpolate f xi (p : Int) = .ok (f.getD k default).y ∧
      0 ≤ (f.getD k default).y.value ∧ (f.getD k default).y.value < (p : Int) ∧
      ∀ i, i < f.length → i ≠ k →
        (∏ j ∈ (Finset.range f.length).erase i,
          (((xi.value : ZMod p) - ((f.getD j default).x.value : ZMod p)) *
            (((f.getD i default).x.value : ZMod p) -
              ((f.getD j default).x.value : ZMod p))⁻¹)) = 0 := by
  haveI : Fact p.Prime := ⟨hp⟩
  have hxi' : (xi.value : ZMod p) = ((f.getD k default).x.value : ZMod p) := by
    have h := (ZMod.intCast_zmod_eq_zero_iff_dvd (xi.value - (f.getD k default).x.value) p).mpr
      (Int.dvd_of_emod_eq_zero hxi)
    push_cast at h
    exact sub_eq_zero.mp h
  have hmem : f.getD k default ∈ f := by
    rw [List.getD_eq_getElem _ _ hk]
    exact List.getElem_mem hk
  obtain ⟨x, y, hxy⟩ := hbuilt _ hmem
  obtain ⟨-, hy0, hy1⟩ := data_reduced p hp.pos _ x y hxy
  obtain ⟨r, hr, h0, h1, hval⟩ := SnarkCpp.interpolate_ok p hp f xi
    (fun i j hi hj hij => hdist i hi j hj hij)
  have hvs := injOn_abscissae p f hdist
  have hnode : (r.value : ZMod p) = ((f.getD k default).y.value : ZMod p) := by
    rw [hval, ← eval_lagrange p hp f xi, hxi']
    exact Lagrange.eval_interpolate_at_node
      (fun i => ((f.getD i default).y.value : ZMod p)) hvs (Finset.mem_range.mpr hk)
  have heq : r.value = (f.getD k default).y.value := by
    have h := (ZMod.intCast_eq_intCast_iff_dvd_sub _ _ p).mp hnode
    have hlt : |(f.getD k default).y.value - r.value| < (p : Int) := by
      rw [abs_lt]
      constructor <;> omega
    have := Int.eq_zero_of_abs_lt_dvd h hlt
    omega
  have hr' : r = (f.getD k default).y := by
    cases r
    cases hy : (f.getD k default).y
    rw [hy] at heq
    simp only at heq
    rw [heq]
  refine ⟨by rw [hr, hr'], hy0, hy1, ?_⟩
  intro i hi hik
  apply Finset.prod_eq_zero (Finset.mem_erase.mpr ⟨Ne.symm hik, Finset.mem_range.mpr hk⟩)
  rw [hxi', sub_self, zero_mul]

/-- The sample points of `main` are what the `Data` constructor builds modulo 101. -/
theorem mainPoints_built :
    ∀ d ∈ SnarkCpp.mainPoints, ∃ x y : Int, SnarkCpp.Data.new x y ((101 : Nat) : Int) = .ok d := by
  intro d hd
  simp only [SnarkCpp.mainPoints, List.mem_cons, List.mem_singleton, List.not_mem_nil,
    or_false] at hd
  rcases hd with rfl | rfl | rfl | rfl | rfl
  · exact ⟨1, 1, by decide⟩
  · exact ⟨2, 4, by decide⟩
  · exact ⟨3, 9, by decide⟩
  · exact ⟨4, 16, by decide⟩
  · exact ⟨5, 25, by decide⟩

/-- C25 on the samples of `main` modulo 101, at the target 104 (congruent to the
x-coordinate 3 of the sample with index 2): the value is the stored 9, by
evaluation too. -/
theorem C25_interpolate_at_node_witness :
    Nat.Prime 101 ∧ 2 < SnarkCpp.mainPoints.length ∧
    (∀ d ∈ SnarkCpp.mainPoints,
      ∃ x y : Int, SnarkCpp.Data.new x y ((101 : Nat) : Int) = .ok d) ∧
    (∀ i, i < SnarkCpp.mainPoints.length → ∀ j, j < SnarkCpp.mainPoints.length → i ≠ j →
      ((SnarkCpp.mainPoints.getD i default).x.value -
        (SnarkCpp.mainPoints.getD j default).x.value) % ((101 : Nat) : Int) ≠ 0) ∧
    ((104 : Int) - (SnarkCpp.mainPoints.getD 2 default).x.value) % ((101 : Nat) : Int) = 0 ∧
    SnarkCpp.interpolate SnarkCpp.mainPoints ⟨104⟩ ((101 : Nat) : Int) =
      .ok (SnarkCpp.mainPoints.getD 2 default).y ∧
    (SnarkCpp.mainPoints.getD 2 default).y = ⟨9⟩ ∧
    SnarkCpp.interpolate SnarkCpp.mainPoints ⟨104⟩ 101 = .ok ⟨9⟩ ∧
    SnarkCpp.interpolate SnarkCpp.mainPoints ⟨3⟩ 101 = .ok ⟨9⟩ :=
  ⟨by norm_num, by decide, mainPoints_built, by decide, by decide,
    (C25_interpolate_at_node 101 (by norm_num) SnarkCpp.mainPoints ⟨104⟩ 2 (by decide)
      mainPoints_built (by decide) (by decide)).1,
    by decide, by decide, by decide⟩

end Interpolation
